import Mathlib

/-!
Verification of the streaming view-maintenance engine of `nless`
(`src/nless/cli.py` and `src/nless.py`).

The embedding translates the state of `NlessApp` and the view-engine
operations (`_update_table`, `_add_log_line`, `_bisect_left`,
`_perform_filter`, `_perform_filter_any`, `_perform_search`,
`_navigate_search`, `handle_delimiter_submitted`) from `src/nless/cli.py`
into pure Lean functions over explicit state records, and the field
splitter `_split_line` from `src/nless.py`.

Modelling conventions:
* Cells are `String`s; the synthetic count cell is stored via `toString`
  of the running count (Python stores an `int`; it is only ever rendered
  or wrapped into a markup string, so the distinction is not observable
  in the modelled operations).
* A compiled `re.Pattern` is modelled by `CPattern`: its `search` field
  gives the boolean result of `pattern.search(s)`, `hsub` models
  `re.sub(pattern, wrap, s)` for the highlight substitution, `rsplit`
  models splitting a line by a regex delimiter, and `groupNames` models
  `pattern.groupindex.keys()`.  Regex compilation (`re.compile`), which
  can fail, is passed to the session-level handlers as an explicit
  `String → Option CPattern` argument; `miniCompile` below is a concrete
  executable compiler for the literal/escaped fragment the code builds
  itself.
* `rich` markup removal (`_get_cell_value_without_markup`) is modelled by
  deleting the only tags this program ever inserts into cells
  (`[reverse]...[/reverse]` and `[#00ff00]...[/#00ff00]`); on tag-free
  strings it is the identity, exactly like the Python helper.
* Python list indexing `l[i]` with a possibly negative index is modelled
  by `pyGetD`; out-of-range accesses (which raise `IndexError` in Python)
  return the default and are excluded by the theorems' hypotheses.
* `_add_log_line` returns `Option`: `none` models an uncaught Python
  exception (the `TypeError` when the sort column cannot be resolved, or
  the `ValueError` raised by `int()` inside `_bisect_left` when the new
  sort value is numeric but a displayed one is not).
-/

/-- Model of a compiled `re.Pattern` object (`re` module, `IGNORECASE`
patterns as compiled by the program). -/
structure CPattern where
  search : String → Bool
  hsub : String → String
  rsplit : String → List String
  groupNames : List String

/-- `self.delimiter` in `cli.py` is either a plain string (one of the
common delimiters or `"raw"`) or a compiled regex. -/
inductive Dlm where
  | str (s : String)
  | pat (p : CPattern)

/-- Cons a character onto the first group of a split result. -/
def consHead (c : Char) : List (List Char) → List (List Char)
  | [] => [[c]]
  | g :: gs => (c :: g) :: gs

/-- Split a character list at every character satisfying `p` (Python
`str.split` with a single-character class: one boundary per separator
occurrence, empty groups kept). -/
def splitPredCL (p : Char → Bool) : List Char → List (List Char)
  | [] => [[]]
  | c :: rest =>
    if p c then [] :: splitPredCL p rest
    else consHead c (splitPredCL p rest)

/-- Python `line.split(sep)` scanning helper: `skip` counts separator
characters still to be consumed after a match. -/
def splitSepAux (sep : List Char) : Nat → List Char → List (List Char)
  | _ + 1, [] => [[]]
  | n + 1, _ :: rest => splitSepAux sep n rest
  | 0, [] => [[]]
  | 0, c :: rest =>
    if sep.isPrefixOf (c :: rest) ∧ sep ≠ [] then
      [] :: splitSepAux sep (sep.length - 1) rest
    else consHead c (splitSepAux sep 0 rest)

/-- Python `line.split(sep)` for a nonempty separator string: split on
every (non-overlapping, leftmost) occurrence, keeping empty fields. -/
def pySplit (sep : String) (line : String) : List String :=
  if sep.toList = [] then [line]
  else (splitSepAux sep.toList 0 line.toList).map String.mk

/-- Python `line.split()` composed with the empty-token filter of
`_split_aligned_row`: split on runs of whitespace, discarding empties. -/
def splitAligned (line : String) : List String :=
  ((splitPredCL Char.isWhitespace line.toList).map String.mk).filter (fun f => f ≠ "")

/-- Modelled from the spec: `split_line` from the module
`src/nless/delimiter.py`, which is not present under `src/` (only its
callers in `src/nless/cli.py` are).  Spec 4.2: `Literal(c)` splits on
every occurrence of `c`; `Whitespace` splits on runs of whitespace,
discarding empty tokens; `Regex(pattern)` applies the pattern (modelled
by the pattern's `rsplit` field); `Raw` returns `[line]` unchanged. -/
def splitD : Dlm → String → List String
  | .str s, line =>
      if s = "raw" then [line]
      else if s = " " then splitAligned line
      else pySplit s line
  | .pat p, line => p.rsplit line

/-- Python `str.replace` scanning helper: left-to-right, non-overlapping
occurrences of `pat` replaced by `repl`; `skip` counts pattern
characters still to be consumed after a match. -/
def replaceAux (pat repl : List Char) : Nat → List Char → List Char
  | _ + 1, [] => []
  | n + 1, _ :: rest => replaceAux pat repl n rest
  | 0, [] => []
  | 0, c :: rest =>
    if pat.isPrefixOf (c :: rest) ∧ pat ≠ [] then
      repl ++ replaceAux pat repl (pat.length - 1) rest
    else c :: replaceAux pat repl 0 rest

/-- Python `s.replace(pat, repl)` for a nonempty pattern. -/
def pyReplace (s pat repl : String) : String :=
  String.mk (replaceAux pat.toList repl.toList 0 s.toList)

/-- `NlessApp._strip_column_indicators`: remove the unique/sort markers
from a column label. -/
def stripColumnIndicators (s : String) : String :=
  pyReplace (pyReplace (pyReplace s " (U)" "") " ▲" "") " ▼" ""

/-- `NlessApp._get_cell_value_without_markup`, restricted to the markup
this program inserts: deletes the `[reverse]` and `[#00ff00]` tags.  On
strings without markup it returns the input unchanged, like the Python
helper. -/
def stripMarkup (s : String) : String :=
  pyReplace (pyReplace (pyReplace (pyReplace s
    "[reverse]" "") "[/reverse]" "") "[#00ff00]" "") "[/#00ff00]" ""

/-- Python `",".join(parts)`. -/
def joinComma : List String → String
  | [] => ""
  | [x] => x
  | x :: xs => x ++ "," ++ joinComma xs

/-- `NlessApp._get_col_idx_by_name`: index of the first column whose
stripped label equals `name`. -/
def getColIdxByName (cols : List String) (name : String) : Option Nat :=
  cols.findIdx? (fun c => stripColumnIndicators c = name)

/-- Python `l[i]` on a list of strings: negative indices address from the
end; out-of-range access (an `IndexError` in Python) returns `d`. -/
def pyGetD (l : List String) (i : Int) (d : String) : String :=
  let j : Int := if i < 0 then (l.length : Int) + i else i
  if 0 ≤ j ∧ j < (l.length : Int) then l.getD j.toNat d else d

/-- The state of `NlessApp` (`cli.py`), restricted to the fields the view
engine reads and writes.  `columns` holds the data table's column labels
(`data_table.columns`), `cursor` the data table's cursor coordinate, and
`count_by_column_key` the insertion-ordered contents of the
`defaultdict`.  `unique_column_names` models the Python set together
with its iteration order, which both maintenance paths share. -/
structure St where
  raw_rows : List String
  raw_header : String
  displayed_rows : List (List String)
  current_filter : Option CPattern
  filter_column_name : Option String
  search_term : Option CPattern
  sort_column : Option String
  sort_reverse : Bool
  search_matches : List (Nat × Nat)
  current_match_index : Int
  unique_column_names : List String
  count_by_column_key : List (String × Nat)
  columns : List String
  cursor : Nat × Nat
  delimiter : Dlm

/-- `defaultdict` read: current count for key `k` (0 when absent). -/
def countGet (m : List (String × Nat)) (k : String) : Nat :=
  match m.find? (fun e => e.1 = k) with
  | some e => e.2
  | none => 0

/-- `self.count_by_column_key[k] += 1`: bump in place, appending a fresh
entry (with count 1) when the key is absent. -/
def countBump (m : List (String × Nat)) (k : String) : List (String × Nat) :=
  match m with
  | [] => [(k, 1)]
  | e :: rest => if e.1 = k then (e.1, e.2 + 1) :: rest else e :: countBump rest k

/-- `self.count_by_column_key[k] = v`: overwrite in place or append. -/
def countSet (m : List (String × Nat)) (k : String) (v : Nat) : List (String × Nat) :=
  match m with
  | [] => [(k, v)]
  | e :: rest => if e.1 = k then (e.1, v) :: rest else e :: countSet rest k v

/-- Insertion-ordered dict write `dedup_map[k] = cells`: overwrite in
place (keeping the first-seen position) or append. -/
def dedupUpsert (m : List (String × List String)) (k : String) (v : List String) :
    List (String × List String) :=
  match m with
  | [] => [(k, v)]
  | e :: rest => if e.1 = k then (e.1, v) :: rest else e :: dedupUpsert rest k v

/-- Step 1 of `_update_table`: the filtering loop.  Returns the kept cell
lists (in raw order) and the number of rows whose field count differs
from `expected` (`rows_with_inconsistent_length`).  When the filter is
scoped to a column that cannot be resolved the Python loop `break`s:
already-processed rows are kept and the rest of the list is not
examined. -/
def filterRows (split : String → List String) (expected : Nat)
    (flt : Option CPattern) (fcol : Option String) (cols : List String)
    (uniqNonempty : Bool) : List String → List (List String) × Nat
  | [] => ([], 0)
  | r :: rs =>
    let cells := split r
    match flt with
    | none =>
      let rest := filterRows split expected none fcol cols uniqNonempty rs
      if cells.length = expected then (cells :: rest.1, rest.2)
      else (rest.1, rest.2 + 1)
    | some f =>
      if cells.length ≠ expected then
        let rest := filterRows split expected (some f) fcol cols uniqNonempty rs
        (rest.1, rest.2 + 1)
      else
        match fcol with
        | none =>
          let rest := filterRows split expected (some f) none cols uniqNonempty rs
          if cells.any (fun c => f.search (stripMarkup c)) then
            (cells :: rest.1, rest.2)
          else (rest.1, rest.2)
        | some cn =>
          match getColIdxByName cols cn with
          | none => ([], 0)
          | some i =>
            let idx : Int := (i : Int) - (if uniqNonempty then 1 else 0)
            let rest := filterRows split expected (some f) (some cn) cols uniqNonempty rs
            if f.search (stripMarkup (pyGetD cells idx "")) then
              (cells :: rest.1, rest.2)
            else (rest.1, rest.2)

/-- Composite key of one filtered row in the rebuild path: for each
unique column name (in set-iteration order), look the column up in the
current table columns, subtract 1 to account for the synthetic count
column, and join the stripped cell values with commas.  Names that do
not resolve are skipped (`continue`). -/
def rebuildKey (cols uniq : List String) (cells : List String) : String :=
  joinComma
    (uniq.filterMap (fun n =>
      (getColIdxByName cols n).map (fun i => stripMarkup (pyGetD cells ((i : Int) - 1) ""))))

/-- Step 2 of `_update_table`: one pass over the filtered rows building
the insertion-ordered `dedup_map` (overwritten in place to keep the
latest cells) and the `count_by_column_key` counts. -/
def dedupFold (cols uniq : List String) (rows : List (List String)) :
    List (String × List String) × List (String × Nat) :=
  rows.foldl
    (fun acc cells =>
      let k := rebuildKey cols uniq cells
      (dedupUpsert acc.1 k cells, countBump acc.2 k))
    ([], [])

/-- Stable insertion used by `stableSort`: place `a` before the first
element `b` with `le a b` false... (`a` is inserted coming from the left
of the original list, so on equal keys it stays before later
elements). -/
def ordInsert (le : α → α → Bool) (a : α) : List α → List α
  | [] => [a]
  | b :: bs => if le a b then a :: b :: bs else b :: ordInsert le a bs

/-- Stable sort with a boolean total preorder, modelling Python
`list.sort` (Timsort is stable; `reverse=True` keeps equal elements in
original order, which corresponds to sorting with the flipped key
comparison). -/
def stableSort (le : α → α → Bool) : List α → List α
  | [] => []
  | a :: as => ordInsert le a (stableSort le as)

/-- Python string `<`: lexicographic comparison of the code points. -/
def strLtCL : List Char → List Char → Bool
  | [], [] => false
  | [], _ :: _ => true
  | _ :: _, [] => false
  | a :: as, b :: bs =>
    if a < b then true else if b < a then false else strLtCL as bs

/-- Python string `<` on `String`. -/
def strLtB (a b : String) : Bool := strLtCL a.toList b.toList

/-- Python string `<=` on `String` (the negation of the flipped strict
comparison, as for any total order). -/
def strLeB (a b : String) : Bool := !strLtB b a

/-- The key comparison `lambda r: r[sort_column_idx]` of `_update_table`
step 3, with `reverse` flipping the comparison. -/
def rowLe (i : Nat) (reverse : Bool) (r s : List String) : Bool :=
  if reverse then strLeB (s.getD i "") (r.getD i "")
  else strLeB (r.getD i "") (s.getD i "")

/-- Highlighting loop shared by both paths: walk the cells of the row at
display index `ri`, wrap matching cells with the pattern's substitution
and record a `Coordinate(ri, ci)` per matching cell. -/
def highlightCells (p : CPattern) (ri : Nat) : Nat → List String → List String × List (Nat × Nat)
  | _, [] => ([], [])
  | ci, c :: cs =>
    let rest := highlightCells p ri (ci + 1) cs
    if p.search c then (p.hsub c :: rest.1, (ri, ci) :: rest.2)
    else (c :: rest.1, rest.2)

/-- Step 4 of `_update_table`: highlight every row, collecting the search
matches in display order. -/
def applySearch (p : CPattern) : Nat → List (List String) → List (List String) × List (Nat × Nat)
  | _, [] => ([], [])
  | ri, row :: rows =>
    let hr := highlightCells p ri 0 row
    let rest := applySearch p (ri + 1) rows
    (hr.1 :: rest.1, hr.2 ++ rest.2)

/-- `NlessApp._update_table` (`cli.py` lines 349-498): full rebuild of
the displayed rows from the raw store and the current specs.  Returns
the new state together with the number of malformed (field-count
mismatched) rows, which the code surfaces as an aggregate warning when
positive.  Cursor restoration and widget calls are rendering concerns
and leave the modelled state unchanged. -/
def updateTable (st : St) : St × Nat :=
  let currCols := st.columns
  let hasCount := currCols.any (fun c => stripColumnIndicators c = "count")
  let expected := currCols.length - (if hasCount then 1 else 0)
  let uniqNE := !st.unique_column_names.isEmpty
  let newCols :=
    if st.unique_column_names.isEmpty then currCols
    else if hasCount then currCols else "count" :: currCols
  let split := splitD st.delimiter
  let fr := filterRows split expected st.current_filter st.filter_column_name
      newCols uniqNE st.raw_rows
  let dm := if st.unique_column_names.isEmpty then ([], [])
    else dedupFold newCols st.unique_column_names fr.1
  let deduped :=
    if st.unique_column_names.isEmpty then fr.1
    else dm.1.map (fun e => toString (countGet dm.2 e.1) :: e.2)
  let sorted :=
    match st.sort_column with
    | none => deduped
    | some sc =>
      match getColIdxByName newCols sc with
      | none => deduped
      | some i => stableSort (rowLe i st.sort_reverse) deduped
  let fin :=
    match st.search_term with
    | none => (sorted, ([] : List (Nat × Nat)))
    | some p => applySearch p 0 sorted
  ({ st with
      displayed_rows := fin.1,
      search_matches := fin.2,
      current_match_index := -1,
      count_by_column_key := dm.2,
      columns := newCols }, fr.2)

/-- Python `str.isnumeric()` for the ASCII fragment: nonempty and all
digits. -/
def pyIsNumeric (s : String) : Bool :=
  !s.toList.isEmpty && s.toList.all Char.isDigit

/-- Python `int(s)` on a digit string. -/
def pyNatOf (s : String) : Nat :=
  s.toList.foldl (fun n c => n * 10 + (c.toNat - 48)) 0

/-- Tail of a Python integer literal after its first digit: digits, with
single grouping underscores allowed between digits. -/
def intDigitsOk : List Char → Bool
  | [] => true
  | c :: cs =>
    if c = '_' then
      match cs with
      | [] => false
      | c2 :: _ => c2.isDigit && intDigitsOk cs
    else c.isDigit && intDigitsOk cs

/-- Python `int(s)` on an arbitrary string (ASCII fragment): surrounding
whitespace is stripped, then an optional sign, then a nonempty digit run
with single grouping underscores; everything else raises a `ValueError`,
modelled as `none`.  Signed values like `-3` convert, even though
`str.isnumeric()` is false for them. -/
def pyIntOf (s : String) : Option Int :=
  match ((s.toList.dropWhile Char.isWhitespace).reverse.dropWhile
      Char.isWhitespace).reverse with
  | [] => none
  | c :: rest =>
    let core : Int × List Char :=
      if c = '+' then (1, rest)
      else if c = '-' then (-1, rest)
      else (1, c :: rest)
    match core.2 with
    | [] => none
    | d :: ds =>
      if d.isDigit && intDigitsOk ds then
        some (core.1 * ((((d :: ds).filter (fun ch => ch != '_')).foldl
          (fun n ch => n * 10 + (ch.toNat - 48)) 0 : Nat) : Int))
      else none

/-- The integer a displayed sort value converts to (`0` when the
conversion would raise; only read when the conversion succeeds). -/
def pyIntValD (s : String) : Int := (pyIntOf s).getD 0

/-- `[int(v) for v in tmp_list]`: `none` models the uncaught
`ValueError` when some displayed value is not an integer literal. -/
def intsOf : List String → Option (List Int)
  | [] => some []
  | s :: rest =>
    match pyIntOf s, intsOf rest with
    | some v, some vs => some (v :: vs)
    | _, _ => none

/-- Scan for the leftmost insertion point of `v` in an ascending sorted
list: the index of the first element `x` with `lt x v` false.  On a
sorted list this is exactly `bisect.bisect_left`. -/
def insPt (lt : α → α → Bool) : List α → α → Nat
  | [], _ => 0
  | x :: xs, v => if lt x v then insPt lt xs v + 1 else 0

/-- `NlessApp._bisect_left` (`cli.py` lines 669-679): copy the displayed
sort keys; when the new value is numeric, convert the value and every
copied key with `int` (`none` models the uncaught `ValueError` when some
displayed key is not an integer literal - signed, whitespace-padded or
underscore-grouped literals convert fine); sort the copy ascending and
take `bisect.bisect_left`; for descending order return `len - idx`. -/
def bisectLeftModel (rList : List String) (value : String) (reverse : Bool) :
    Option Nat :=
  if pyIsNumeric value then
    match intsOf rList with
    | none => none
    | some tmp =>
      let v : Int := (pyNatOf value : Nat)
      let sortedTmp := stableSort (fun a b : Int => decide (a ≤ b)) tmp
      let i := insPt (fun x y : Int => decide (x < y)) sortedTmp v
      some (if reverse then tmp.length - i else i)
  else
    let sortedTmp := stableSort strLeB rList
    let i := insPt strLtB sortedTmp value
    some (if reverse then rList.length - i else i)

/-- Composite key of a row in the append path (`_add_log_line`): lookup
in the current table columns without the `-1` adjustment, because here
the row already carries the synthetic count cell at position 0. -/
def rowCompositeKey (cols uniq : List String) (row : List String) : String :=
  joinComma
    (uniq.filterMap (fun n =>
      (getColIdxByName cols n).map (fun i => stripMarkup (pyGetD row (i : Int) ""))))

/-- The `[#00ff00]...[/#00ff00]` wrapper `_add_log_line` applies to every
cell of a replaced (deduplicated) row. -/
def wrapGreen (s : String) : String := "[#00ff00]" ++ s ++ "[/#00ff00]"

/-- `NlessApp._add_log_line` (`cli.py` lines 691-814): integrate one raw
line into the current displayed rows.  Returns the updated state and the
notifications emitted (always `[]`: this path never notifies), or `none`
when the Python code would raise an uncaught exception (unresolvable
sort column, or `int()` failure inside `_bisect_left`).  A filter scoped
to an unresolvable column returns with no state change, like the early
`return`s for malformed or filtered-out lines. -/
def addLogLine (st : St) (line : String) : Option (St × List String) :=
  let cells0 := splitD st.delimiter line
  let cells1 := if st.unique_column_names.isEmpty then cells0 else "1" :: cells0
  if cells1.length ≠ st.columns.length then some (st, []) else
  let filterOk : Bool :=
    match st.current_filter with
    | none => true
    | some f =>
      match st.filter_column_name with
      | none => cells1.any (fun c => f.search (stripMarkup c))
      | some cn =>
        match getColIdxByName st.columns cn with
        | none => false
        | some i => f.search (stripMarkup (pyGetD cells1 (i : Int) ""))
  if !filterOk then some (st, []) else
  let ded :
      List String × Option Nat × Option (List String) × List (String × Nat) :=
    if st.unique_column_names.isEmpty then
      (cells1, none, none, st.count_by_column_key)
    else
      let k := rowCompositeKey st.columns st.unique_column_names cells1
      match st.displayed_rows.findIdx?
          (fun row => rowCompositeKey st.columns st.unique_column_names row = k) with
      | some j =>
        let c' := countBump st.count_by_column_key k
        let n := countGet c' k
        let newCells := cells1.enum.map (fun e =>
          if e.1 = 0 then wrapGreen (toString n) else wrapGreen (stripMarkup e.2))
        (newCells, some j, st.displayed_rows.get? j, c')
      | none => (cells1, none, none, countSet st.count_by_column_key k 1)
  let cells2 := ded.1
  let oldRow := ded.2.2.1
  let counts' := ded.2.2.2
  let newIndexO : Option Nat :=
    match st.sort_column with
    | none => some st.displayed_rows.length
    | some sc =>
      match getColIdxByName st.columns sc with
      | none => none
      | some i =>
        let sortKey := stripMarkup (pyGetD cells2 (i : Int) "")
        let keys := st.displayed_rows.map (fun r => stripMarkup (pyGetD r (i : Int) ""))
        bisectLeftModel keys sortKey st.sort_reverse
  match newIndexO with
  | none => none
  | some newIndex =>
    let hl :=
      match st.search_term with
      | none => (cells2, ([] : List (Nat × Nat)))
      | some p => highlightCells p newIndex 0 cells2
    let d1 := List.insertIdx newIndex hl.1 st.displayed_rows
    let d2 := match oldRow with
      | some orow => d1.erase orow
      | none => d1
    some ({ st with
        displayed_rows := d2,
        search_matches := st.search_matches ++ hl.2,
        count_by_column_key := counts' }, [])

/-- `NlessApp.add_logs` steady-state step: the raw store is extended
first, then `_add_log_line` integrates the line (`cli.py` lines
659-665). -/
def ingestLine (st : St) (line : String) : Option St :=
  (addLogLine { st with raw_rows := st.raw_rows ++ [line] } line).map (fun r => r.1)

/-- Sequential steady-state ingestion of a list of lines in arrival
order. -/
def ingestAll (st : St) : List String → Option St
  | [] => some st
  | l :: ls =>
    match ingestLine st l with
    | none => none
    | some st' => ingestAll st' ls

/-- `NlessApp._navigate_search` (`cli.py` lines 615-628): on an empty
match list warn and change nothing; otherwise advance the match cursor
modulo the match count and move the table cursor to the target
coordinate.  The returned list holds the emitted notifications. -/
def navigateSearch (st : St) (direction : Int) : St × List String :=
  if st.search_matches.isEmpty then (st, ["No search results."])
  else
    let n : Int := (st.search_matches.length : Int)
    let idx := (st.current_match_index + direction + n).emod n
    let tgt := st.search_matches.getD idx.toNat (0, 0)
    ({ st with current_match_index := idx, cursor := tgt }, [])

/-- `NlessApp._perform_search` (`cli.py` lines 601-613), with regex
compilation passed explicitly.  Result: new state, emitted error
messages, and whether `_update_table` ran. -/
def performSearch (compile : String → Option CPattern) (st : St) (v : String) :
    St × List String × Bool :=
  if v = "" then
    let st2 := (updateTable { st with search_term := none }).1
    let st3 := if st2.search_matches.isEmpty then st2 else (navigateSearch st2 1).1
    (st3, [], true)
  else
    match compile v with
    | none => (st, ["Invalid regex pattern"], false)
    | some p =>
      let st2 := (updateTable { st with search_term := some p }).1
      let st3 := if st2.search_matches.isEmpty then st2 else (navigateSearch st2 1).1
      (st3, [], true)

/-- `NlessApp._perform_filter` (`cli.py` lines 581-599). -/
def performFilter (compile : String → Option CPattern) (st : St) (v : String)
    (columnName : Option String) : St × List String × Bool :=
  if v = "" then
    ((updateTable { st with current_filter := none, filter_column_name := none }).1,
      [], true)
  else
    match compile v with
    | none => (st, ["Invalid regex pattern"], false)
    | some p =>
      ((updateTable { st with
          current_filter := some p,
          filter_column_name := columnName }).1, [], true)

/-- Python `re.escape`: prefix every special character with a
backslash. -/
def reSpecialChars : List Char :=
  ['(', ')', '[', ']', '\x7b', '\x7d', '?', '*', '+', '-', '|', '^', '$',
   '\\', '.', '&', '~', '#', ' ', '\t', '\n', '\r', '\x0b', '\x0c']

/-- Python `re.escape(s)`. -/
def reEscape (s : String) : String :=
  String.mk (s.toList.flatMap (fun c => if c ∈ reSpecialChars then ['\\', c] else [c]))

/-- Containment of `pat` as a contiguous segment of `l`. -/
def containsSeg (pat : List Char) : List Char → Bool
  | [] => pat.isEmpty
  | c :: rest => pat.isPrefixOf (c :: rest) || containsSeg pat rest

/-- Case-insensitive substring test: the semantics of
`re.compile(re.escape(pat), re.IGNORECASE).search(s)` for a literal
pattern. -/
def ciSubstr (pat s : String) : Bool :=
  containsSeg (pat.toList.map Char.toLower) (s.toList.map Char.toLower)

/-- An `IGNORECASE`-compiled literal pattern: searching is
case-insensitive substring containment.  (`hsub`/`rsplit` are unused by
the claims exercising this mini engine.) -/
def litPatternCI (lit : String) : CPattern :=
  { search := ciSubstr lit
    hsub := fun s => s
    rsplit := fun l => [l]
    groupNames := [] }

/-- An `IGNORECASE`-compiled fully anchored literal pattern `^lit$`:
searching succeeds exactly on a case-insensitive full match. -/
def exactPatternCI (lit : String) : CPattern :=
  { search := fun s => s.toList.map Char.toLower = lit.toList.map Char.toLower
    hsub := fun s => s
    rsplit := fun l => [l]
    groupNames := [] }

/-- Regex metacharacters that make an unescaped pattern non-literal; a
pattern containing one of them unescaped is conservatively rejected by
`miniCompile`. -/
def reMetaChars : List Char :=
  ['(', ')', '[', ']', '?', '*', '+', '|', '^', '$', '.', '\\']

/-- Read a purely literal regex body: backslash-escaped characters are
taken verbatim, unescaped metacharacters fail. -/
def parseLitChars : List Char → Option (List Char)
  | [] => some []
  | c :: rest =>
    if c = '\\' then
      match rest with
      | [] => none
      | c2 :: rest2 => (parseLitChars rest2).map (fun l => c2 :: l)
    else if c ∈ reMetaChars then none
    else (parseLitChars rest).map (fun l => c :: l)

/-- Executable model of `re.compile(pat, re.IGNORECASE)` for the
fragment of patterns this program constructs itself: either a fully
anchored literal `^...$` (built by the filter-by-word-under-cursor
command) or a plain literal (in particular any output of `re.escape`).
Everything else is conservatively rejected (`none` = `re.error`); the
session handlers are additionally stated over arbitrary compile
functions, so this conservatism is never load-bearing. -/
def miniCompile (pat : String) : Option CPattern :=
  let l := pat.toList
  if l.head? = some '^' then
    if l.getLast? = some '$' then
      (parseLitChars l.tail.dropLast).map (fun cs => exactPatternCI (String.mk cs))
    else none
  else (parseLitChars l).map (fun cs => litPatternCI (String.mk cs))

/-- `NlessApp._perform_filter_any` (`cli.py` lines 563-579): the
submitted text is regex-escaped before compilation. -/
def performFilterAny (compile : String → Option CPattern) (st : St) (v : String) :
    St × List String × Bool :=
  if v = "" then
    ((updateTable { st with current_filter := none, filter_column_name := none }).1,
      [], true)
  else
    match compile (reEscape v) with
    | none => (st, ["Invalid regex pattern"], false)
    | some p =>
      ((updateTable { st with
          current_filter := some p,
          filter_column_name := none }).1, [], true)

/-- The pattern string `action_filter_cursor_word` submits: the escaped
cell value anchored as `^...$` (`cli.py` lines 190-205). -/
def filterCursorWordPattern (cellValue : String) : String :=
  "^" ++ reEscape cellValue ++ "$"

/-- The delimiters `handle_delimiter_submitted` treats as plain strings
rather than regexes. -/
def commonDelims : List String := [",", "\\t", " ", "  ", "|", ";", "raw"]

/-- `prev_delimiter == "raw" or isinstance(prev_delimiter, re.Pattern)`. -/
def isRawOrPattern : Dlm → Bool
  | .str s => s = "raw"
  | .pat _ => true

/-- `prev_delimiter != delimiter` where `delimiter` is the submitted
common-delimiter string. -/
def dlmNeStr : Dlm → String → Bool
  | .str s, d => s ≠ d
  | .pat _, _ => true

/-- `NlessApp.handle_delimiter_submitted` (`cli.py` lines 283-341).
Note that the filter, filter column, search term, sort column and
unique-key set are cleared before the submitted value is validated
(`delimiter_inferred`, a pure bookkeeping flag, is not modelled).
Result: new state, emitted error messages, and whether `_update_table`
ran. -/
def handleDelimiterSubmitted (compile : String → Option CPattern) (st : St)
    (value : String) : St × List String × Bool :=
  let st1 := { st with
    current_filter := none, filter_column_name := none, search_term := none,
    sort_column := none, unique_column_names := [] }
  let prev := st.delimiter
  if ¬ (value ∈ commonDelims) then
    match compile value with
    | some p =>
      let rows1 := if !isRawOrPattern prev then st1.raw_header :: st1.raw_rows
        else st1.raw_rows
      ((updateTable { st1 with
          delimiter := .pat p,
          columns := p.groupNames,
          raw_rows := rows1 }).1, [], true)
    | none => (st1, ["Invalid delimiter"], false)
  else
    let d := if value = "\\t" then "\t" else value
    let hdr :=
      if d = "raw" then (["log"], st1.raw_rows)
      else if isRawOrPattern prev then
        (splitD (.str d) (st1.raw_rows.headD ""), st1.raw_rows.tail)
      else (splitD (.str d) st1.raw_header, st1.raw_rows)
    let rows2 :=
      if dlmNeStr prev d && !isRawOrPattern prev && d = "raw" then
        st1.raw_header :: hdr.2
      else hdr.2
    ((updateTable { st1 with
        delimiter := .str d,
        columns := hdr.1,
        raw_rows := rows2 }).1, [], true)

/-- `NlessApp._split_line` from the standalone `src/nless.py` (lines
506-531): delimiter `" "` collapses whitespace runs, the sentinel
`"n/a"` (the raw mode of this variant) returns the whole line as a
single field, and any other delimiter splits literally. -/
def splitLineNless (delimiter : String) (line : String) : List String :=
  if delimiter = " " then splitAligned line
  else if delimiter = "n/a" then [line]
  else pySplit delimiter line


/-! ## Shared concrete material and helper lemmas -/

/-- A blank session state used as the base of the concrete instances in
the theorems below. -/
def emptySt : St :=
  { raw_rows := [], raw_header := "", displayed_rows := [],
    current_filter := none, filter_column_name := none, search_term := none,
    sort_column := none, sort_reverse := false, search_matches := [],
    current_match_index := -1, unique_column_names := [],
    count_by_column_key := [], columns := [], cursor := (0, 0),
    delimiter := .str "raw" }

/-! ## Claim C9 -/

/-- Claim C9: the field splitter of `src/nless.py` satisfies the
round-trip examples: a literal comma splits `"a,b,c"` into
`["a","b","c"]`, the whitespace delimiter collapses runs and discards
empty tokens on `"a   b  c"`, and the raw (here: `"n/a"`) delimiter maps
every input line to the single-element list holding the line
unchanged. -/
theorem C9_split_round_trip :
    splitLineNless "," "a,b,c" = ["a", "b", "c"] ∧
    splitLineNless " " "a   b  c" = ["a", "b", "c"] ∧
    ∀ line : String, splitLineNless "n/a" line = [line] := by
  refine ⟨by decide, by decide, fun line => rfl⟩

/-! ## Claim C8 -/

/-- Claim C8: search navigation.  With an empty match list, navigation
reports "no results" and changes nothing (cursor and match index
included); otherwise it moves the current match index by `dir` modulo
the match count, wrapping in both directions, and moves the cursor to
that match's coordinate.  The closing conjunct checks the wrap examples:
with three matches, four consecutive `Next()` calls starting from a
fresh search land back on the first match, and `Previous()` from the
first match lands on the last. -/
theorem C8_navigate_modulo (st : St) (dir : Int) :
    (st.search_matches = [] →
      navigateSearch st dir = (st, ["No search results."])) ∧
    (st.search_matches ≠ [] →
      (navigateSearch st dir).1.current_match_index =
        (st.current_match_index + dir + st.search_matches.length) %
          (st.search_matches.length : Int) ∧
      (navigateSearch st dir).1.cursor =
        st.search_matches.getD
          ((st.current_match_index + dir + st.search_matches.length) %
            (st.search_matches.length : Int)).toNat (0, 0) ∧
      (navigateSearch st dir).1.search_matches = st.search_matches ∧
      (navigateSearch st dir).1.displayed_rows = st.displayed_rows ∧
      (navigateSearch st dir).2 = []) ∧
    (let s0 := { emptySt with search_matches := [(5, 0), (6, 1), (7, 2)] }
     let s1 := (navigateSearch s0 1).1
     let s2 := (navigateSearch s1 1).1
     let s3 := (navigateSearch s2 1).1
     let s4 := (navigateSearch s3 1).1
     s1.current_match_index = 0 ∧ s1.cursor = (5, 0) ∧
     s4.current_match_index = 0 ∧ s4.cursor = (5, 0) ∧
     (navigateSearch s1 (-1)).1.current_match_index = 2 ∧
     (navigateSearch s1 (-1)).1.cursor = (7, 2)) := by
  refine ⟨?_, ?_, ?_⟩
  · intro h
    simp [navigateSearch, h]
  · intro h
    have hne : st.search_matches.isEmpty = false := by
      cases hm : st.search_matches with
      | nil => exact absurd hm h
      | cons a l => rfl
    simp only [navigateSearch, hne, Bool.false_eq_true, if_false]
    exact ⟨rfl, rfl, trivial, trivial, trivial⟩
  · decide

/-- A concrete state with three search matches and the cursor on the
first of them, used by the C8 witness. -/
def stC8 : St :=
  { emptySt with
    search_matches := [(5, 0), (6, 1), (7, 2)]
    current_match_index := 0 }

/-- Witness for C8: the general part applied to a concrete state with
three matches. -/
theorem C8_navigate_modulo_witness :
    stC8.search_matches ≠ [] ∧
    (navigateSearch stC8 (-1)).1.current_match_index =
      (stC8.current_match_index + (-1) + stC8.search_matches.length) %
        (stC8.search_matches.length : Int) :=
  ⟨by decide, ((C8_navigate_modulo stC8 (-1)).2.1 (by decide)).1⟩

/-! ## Characterization of the rebuild filtering loop -/

/-- With no active filter, the rebuild keep-loop keeps exactly the rows
whose split field count equals `expected`, and counts every other row as
malformed. -/
theorem filterRows_none_eq (split : String → List String) (expected : Nat)
    (fcol : Option String) (cols : List String) (uniqNE : Bool) :
    ∀ raws : List String,
      filterRows split expected none fcol cols uniqNE raws =
        ((raws.map split).filter (fun cs => cs.length == expected),
         (raws.map split).countP (fun cs => !(cs.length == expected)))
  | [] => rfl
  | r :: rs => by
    have ih := filterRows_none_eq split expected fcol cols uniqNE rs
    simp only [filterRows, ih, List.map_cons, List.filter_cons, List.countP_cons]
    by_cases h : (split r).length = expected
    · simp [h]
    · simp [h]

/-- With an any-column filter, the rebuild keep-loop keeps exactly the
length-correct rows with some matching (markup-stripped) cell, counting
every length-mismatched row as malformed. -/
theorem filterRows_any_eq (split : String → List String) (expected : Nat)
    (f : CPattern) (cols : List String) (uniqNE : Bool) :
    ∀ raws : List String,
      filterRows split expected (some f) none cols uniqNE raws =
        ((raws.map split).filter
          (fun cs => cs.length == expected &&
            cs.any (fun c => f.search (stripMarkup c))),
         (raws.map split).countP (fun cs => !(cs.length == expected)))
  | [] => rfl
  | r :: rs => by
    have ih := filterRows_any_eq split expected f cols uniqNE rs
    simp only [filterRows, ih, List.map_cons, List.filter_cons, List.countP_cons]
    by_cases h : (split r).length = expected
    · by_cases h2 : (split r).any (fun c => f.search (stripMarkup c))
      · simp [h, h2]
      · simp [h, h2]
    · simp [h]

/-- With a filter scoped to a resolvable column, the rebuild keep-loop
keeps exactly the length-correct rows whose scoped (markup-stripped)
cell matches, counting every length-mismatched row as malformed.  The
scoped index is shifted left by one when dedup mode is active, to skip
the synthetic count column. -/
theorem filterRows_col_eq (split : String → List String) (expected : Nat)
    (f : CPattern) (cn : String) (cols : List String) (uniqNE : Bool)
    (i : Nat) (h : getColIdxByName cols cn = some i) :
    ∀ raws : List String,
      filterRows split expected (some f) (some cn) cols uniqNE raws =
        ((raws.map split).filter
          (fun cs => cs.length == expected &&
            f.search (stripMarkup
              (pyGetD cs ((i : Int) - (if uniqNE then 1 else 0)) ""))),
         (raws.map split).countP (fun cs => !(cs.length == expected)))
  | [] => rfl
  | r :: rs => by
    have ih := filterRows_col_eq split expected f cn cols uniqNE i h rs
    simp only [filterRows, h, ih, List.map_cons, List.filter_cons, List.countP_cons]
    by_cases hl : (split r).length = expected
    · by_cases h2 : f.search (stripMarkup
          (pyGetD (split r) ((i : Int) - (if uniqNE then 1 else 0)) ""))
      · simp [hl, h2]
      · simp [hl, h2]
    · simp [hl]

/-! ## Claim C6 -/

/-- Claim C6 (amended): malformed handling.  In the rebuild path, every
raw line whose split field count differs from the expected field count
is counted as malformed exactly once (the count is surfaced as the
aggregate warning); this holds with no filter, with an any-column
filter, and with a filter scoped to a resolvable column.  In the
incremental append path a field-count-mismatched line is excluded and
never fatal — the state is returned unchanged — but, contrary to the
claim as stated, no malformed counter is incremented and no warning is
emitted there. -/
theorem C6_malformed_handling (st : St) :
    (st.current_filter = none →
      (updateTable st).2 =
        ((st.raw_rows.map (splitD st.delimiter)).countP
          (fun cs => !(cs.length ==
            st.columns.length -
              (if st.columns.any (fun c => stripColumnIndicators c = "count")
               then 1 else 0))))) ∧
    (∀ f, st.current_filter = some f → st.filter_column_name = none →
      (updateTable st).2 =
        ((st.raw_rows.map (splitD st.delimiter)).countP
          (fun cs => !(cs.length ==
            st.columns.length -
              (if st.columns.any (fun c => stripColumnIndicators c = "count")
               then 1 else 0))))) ∧
    (∀ f cn i, st.current_filter = some f → st.filter_column_name = some cn →
      getColIdxByName
        (if st.unique_column_names.isEmpty then st.columns
         else if st.columns.any (fun c => stripColumnIndicators c = "count")
         then st.columns else "count" :: st.columns) cn = some i →
      (updateTable st).2 =
        ((st.raw_rows.map (splitD st.delimiter)).countP
          (fun cs => !(cs.length ==
            st.columns.length -
              (if st.columns.any (fun c => stripColumnIndicators c = "count")
               then 1 else 0))))) ∧
    (∀ line,
      (splitD st.delimiter line).length +
          (if st.unique_column_names.isEmpty then 0 else 1) ≠ st.columns.length →
      addLogLine st line = some (st, [])) := by
  refine ⟨?_, ?_, ?_, ?_⟩
  · intro hf
    simp only [updateTable, hf, filterRows_none_eq]
  · intro f hf hc
    simp only [updateTable, hf, hc, filterRows_any_eq]
  · intro f cn i hf hc hcol
    simp only [updateTable, hf, hc]
    rw [filterRows_col_eq (splitD st.delimiter) _ f cn _ _ i hcol]
  · intro line hlen
    have : ((if st.unique_column_names.isEmpty then splitD st.delimiter line
        else "1" :: splitD st.delimiter line).length ≠ st.columns.length) := by
      by_cases hu : st.unique_column_names.isEmpty <;>
        simp [hu] at hlen ⊢ <;> omega
    simp only [addLogLine]
    rw [if_pos this]

/-- A three-column comma-delimited session with no specs active, used by
the C6 counterexample and witness. -/
def stC6 : St :=
  { emptySt with
    columns := ["a", "b", "c"]
    delimiter := .str ","
    raw_rows := ["1,2,3", "x,y"] }

/-- Counterexample to claim C6 as stated: a 2-field line under a
3-column header is excluded by the incremental append path, but that
path emits no warning and increments no malformed counter (the state
comes back entirely unchanged), whereas one full rebuild over the same
data counts the line as malformed once.  So the counter is not
incremented "in both paths". -/
theorem C6_malformed_cex :
    addLogLine stC6 "x,y" = some (stC6, []) ∧
    (updateTable stC6).2 = 1 := by
  constructor
  · rfl
  · rfl

/-- Witness for C6: the rebuild conjunct applied to the concrete
unfiltered session. -/
theorem C6_malformed_handling_witness :
    stC6.current_filter = none ∧
    (updateTable stC6).2 =
      ((stC6.raw_rows.map (splitD stC6.delimiter)).countP
        (fun cs => !(cs.length ==
          stC6.columns.length -
            (if stC6.columns.any (fun c => stripColumnIndicators c = "count")
             then 1 else 0)))) :=
  ⟨rfl, (C6_malformed_handling stC6).1 rfl⟩

/-! ## Claim C7 -/

/-- Claim C7 (amended): invalid-pattern handling.  A nonempty filter or
search submission whose pattern fails to compile is rejected with an
error message, leaves the whole state unchanged, and never reaches the
view engine.  A delimiter submission whose pattern fails to compile is
likewise rejected with an error, keeps the delimiter itself unchanged
and never reaches the view engine — but, contrary to the claim as
stated, the filter, filter column, search term, sort column and
unique-key set have already been cleared by the handler before
validation (only the sort direction survives). -/
theorem C7_invalid_pattern_state (compile : String → Option CPattern) (st : St)
    (v : String) (hv : v ≠ "") (hc : compile v = none) :
    (∀ cn, performFilter compile st v cn = (st, ["Invalid regex pattern"], false)) ∧
    performSearch compile st v = (st, ["Invalid regex pattern"], false) ∧
    (v ∉ commonDelims →
      handleDelimiterSubmitted compile st v =
        ({ st with
            current_filter := none, filter_column_name := none,
            search_term := none, sort_column := none,
            unique_column_names := [] }, ["Invalid delimiter"], false)) := by
  refine ⟨fun cn => ?_, ?_, fun hcd => ?_⟩
  · simp [performFilter, hv, hc]
  · simp [performSearch, hv, hc]
  · simp [handleDelimiterSubmitted, hcd, hc]

/-- A session with every spec populated, used by the C7 counterexample
and witness. -/
def stC7 : St :=
  { emptySt with
    columns := ["colA", "colB"]
    delimiter := .str ","
    sort_column := some "colA"
    sort_reverse := true
    filter_column_name := some "colB"
    unique_column_names := ["colA"]
    raw_rows := ["1,2"] }

/-- Counterexample to claim C7 as stated: submitting the invalid
delimiter regex `"["` (with a compiler that rejects it) must, per the
claim, leave every piece of prior spec state untouched; but the handler
has already cleared the sort column and the unique-key set before
validation, so they do not survive the rejected submission. -/
theorem C7_invalid_pattern_cex :
    (handleDelimiterSubmitted (fun _ => none) stC7 "[").1.sort_column = none ∧
    (handleDelimiterSubmitted (fun _ => none) stC7 "[").1.unique_column_names = [] ∧
    (handleDelimiterSubmitted (fun _ => none) stC7 "[").2 =
      (["Invalid delimiter"], false) ∧
    stC7.sort_column = some "colA" ∧
    stC7.unique_column_names = ["colA"] := by
  refine ⟨rfl, rfl, rfl, rfl, rfl⟩

/-- Witness for C7: the filter and search failure paths applied to the
concrete populated session and the always-failing compiler. -/
theorem C7_invalid_pattern_state_witness :
    ("[" : String) ≠ "" ∧ (fun (_ : String) => (none : Option CPattern)) "[" = none ∧
    performFilter (fun _ => none) stC7 "[" (some "colB") =
      (stC7, ["Invalid regex pattern"], false) ∧
    ("[" : String) ∉ commonDelims ∧
    (handleDelimiterSubmitted (fun _ => none) stC7 "[").2 =
      (["Invalid delimiter"], false) :=
  ⟨by decide, rfl,
    (C7_invalid_pattern_state (fun _ => none) stC7 "[" (by decide) rfl).1 (some "colB"),
    by decide,
    by rw [(C7_invalid_pattern_state (fun _ => none) stC7 "[" (by decide) rfl).2.2
      (by decide)]⟩

/-! ## The escaped-literal fragment of the regex engine -/

/-- Every regex metacharacter is among the characters `re.escape`
escapes. -/
theorem reMeta_subset_reSpecial : ∀ c : Char, c ∈ reMetaChars → c ∈ reSpecialChars := by
  intro c h
  fin_cases h <;> decide

/-- Reading back an escaped character list recovers it verbatim. -/
theorem parseLitChars_escape :
    ∀ d : List Char,
      parseLitChars (d.flatMap
        (fun c => if c ∈ reSpecialChars then ['\\', c] else [c])) = some d
  | [] => rfl
  | c :: cs => by
    have ih := parseLitChars_escape cs
    by_cases hc : c ∈ reSpecialChars
    · simp [List.flatMap_cons, hc, parseLitChars, ih]
    · have hb : c ≠ '\\' := fun h => hc (h ▸ by decide)
      have hm : c ∉ reMetaChars := fun h => hc (reMeta_subset_reSpecial c h)
      simp only [List.flatMap_cons, if_neg hc, List.singleton_append]
      rw [parseLitChars.eq_def]
      simp only [if_neg hb, if_neg hm, ih]
      rfl

/-- Compiling an escaped submission always succeeds and yields the
case-insensitive literal-substring pattern for the original text. -/
theorem miniCompile_reEscape (s : String) :
    miniCompile (reEscape s) = some (litPatternCI s) := by
  obtain ⟨d⟩ := s
  have hparse := parseLitChars_escape d
  have hhead :
      (d.flatMap (fun c => if c ∈ reSpecialChars then ['\\', c] else [c])).head? ≠
        some '^' := by
    cases d with
    | nil => simp
    | cons c cs =>
      by_cases hc : c ∈ reSpecialChars
      · simp [List.flatMap_cons, hc]
      · have : c ≠ '^' := fun h => hc (h ▸ by decide)
        simp [List.flatMap_cons, hc, this]
  simp [miniCompile, reEscape, hhead, hparse]

/-- Compiling the anchored pattern built by the
filter-by-word-under-cursor command yields the case-insensitive exact
(full-cell) pattern for the cell value. -/
theorem miniCompile_cursorWord (cv : String) :
    miniCompile (filterCursorWordPattern cv) = some (exactPatternCI cv) := by
  obtain ⟨d⟩ := cv
  have hparse := parseLitChars_escape d
  have hto : (filterCursorWordPattern ⟨d⟩).data =
      '^' :: ((d.flatMap (fun c => if c ∈ reSpecialChars then ['\\', c] else [c]))
        ++ ['$']) := rfl
  simp only [miniCompile, String.toList, hto, List.head?_cons, List.tail_cons]
  rw [if_pos trivial, ← List.cons_append, List.getLast?_concat]
  simp [List.dropLast_concat, hparse]

/-! ## Claim C10 -/

/-- Claim C10: the any-column filter prompt escapes its input before
compiling, so compilation always succeeds and no invalid-pattern error
is ever reported (for the empty submission the filter is simply
cleared); the resulting filter keeps a row exactly when some
markup-stripped cell contains the submitted text as a case-insensitive
literal substring.  The single-column prompt, in contrast, forwards its
input as a raw regex and can be rejected, e.g. on `"("`. -/
theorem C10_filter_any_literal (st : St) (v : String) (hv : v ≠ "") :
    (performFilterAny miniCompile st v).2.1 = [] ∧
    (performFilterAny miniCompile st v).2.2 = true ∧
    (performFilterAny miniCompile st "").2.1 = [] ∧
    (performFilterAny miniCompile st v).1 =
      (updateTable { st with
          current_filter := some (litPatternCI v),
          filter_column_name := none }).1 ∧
    (∀ split expected cols uniqNE raws,
      (filterRows split expected (some (litPatternCI v)) none cols uniqNE
          raws).1 =
        (raws.map split).filter (fun cs => cs.length == expected &&
          cs.any (fun c => ciSubstr v (stripMarkup c)))) ∧
    performFilter miniCompile st "(" (some "c") =
      (st, ["Invalid regex pattern"], false) := by
  have hm := miniCompile_reEscape v
  refine ⟨?_, ?_, rfl, ?_, ?_, rfl⟩
  · simp [performFilterAny, hv, hm]
  · simp [performFilterAny, hv, hm]
  · simp [performFilterAny, hv, hm]
  · intro split expected cols uniqNE raws
    rw [filterRows_any_eq]
    rfl

/-- Witness for C10: the any-column prompt applied to the blank session
with the text `err`. -/
theorem C10_filter_any_literal_witness :
    ("err" : String) ≠ "" ∧
    (performFilterAny miniCompile emptySt "err").2.1 = [] :=
  ⟨by decide, (C10_filter_any_literal emptySt "err" (by decide)).1⟩

/-! ## Claim C3 -/

/-- The `IGNORECASE` literal search pattern `3` with the highlight
substitution `re.sub` performs on a fully matching cell. -/
def pat3 : CPattern :=
  { search := ciSubstr "3"
    hsub := fun s => "[reverse]" ++ s ++ "[/reverse]"
    rsplit := fun l => [l]
    groupNames := [] }

/-- A raw-delimited session sorted ascending on its single column with
the search `3` active, freshly rebuilt over the raw lines `2`, `3`. -/
def stC3 : St :=
  (updateTable { emptySt with
    columns := ["log"]
    delimiter := .str "raw"
    sort_column := some "log"
    search_term := some pat3
    raw_rows := ["2", "3"] }).1

/-- Claim C3 is violated by the code (the spec's requirement is the
intent; the incremental path omits it): after the rebuild the match
index `[(1, 0)]` is exact — the search `3` matches exactly the cell at
row 1.  Appending the line `1` inserts the new row at position 0,
shifting the matching row to position 2, but the incremental path never
renumbers existing match entries: the index still reads `[(1, 0)]`,
which now points at the non-matching cell `2`, while the matching cell
`3` at `(2, 0)` has no entry. -/
theorem C3_match_index_stale :
    stC3.displayed_rows = [["2"], ["[reverse]3[/reverse]"]] ∧
    stC3.search_matches = [(1, 0)] ∧
    (addLogLine stC3 "1").map (fun r => r.1.displayed_rows) =
      some [["1"], ["2"], ["[reverse]3[/reverse]"]] ∧
    (addLogLine stC3 "1").map (fun r => r.1.search_matches) = some [(1, 0)] ∧
    pat3.search (stripMarkup "2") = false ∧
    pat3.search (stripMarkup "[reverse]3[/reverse]") = true := by
  refine ⟨rfl, rfl, rfl, rfl, by decide, by decide⟩

/-! ## Claim C1 -/

/-- A raw-delimited single-column session with ascending sort active and
no other specs, used by the C1 counterexample. -/
def stC1 : St :=
  { emptySt with
    columns := ["log"]
    delimiter := .str "raw"
    sort_column := some "log" }

/-- Counterexample to claim C1 as stated: with ascending sort on the
single raw column, ingesting `3`, `10`, `2` through the incremental
append path yields `2, 3, 10` (the numeric interpretation of
`_bisect_left`, triggered because each arriving value is numeric), while
one full rebuild over the same raw lines string-sorts them to
`10, 2, 3` — the two maintenance paths produce different orders. -/
theorem C1_append_equiv_cex :
    (ingestAll stC1 ["3", "10", "2"]).map (fun s => s.displayed_rows) =
      some [["2"], ["3"], ["10"]] ∧
    (updateTable { stC1 with raw_rows := ["3", "10", "2"] }).1.displayed_rows =
      [["10"], ["2"], ["3"]] ∧
    some [["2"], ["3"], ["10"]] ≠
      some ([["10"], ["2"], ["3"]] : List (List String)) := by
  refine ⟨rfl, rfl, by decide⟩

/-- The keep test shared by both maintenance paths when dedup mode is
off: correct field count, and the filter (if any) matches on the
configured scope. -/
def keepCellsB (expected : Nat) (flt : Option CPattern) (fcol : Option String)
    (cols : List String) (cs : List String) : Bool :=
  cs.length == expected &&
    (match flt with
     | none => true
     | some f =>
       match fcol with
       | none => cs.any (fun c => f.search (stripMarkup c))
       | some cn =>
         match getColIdxByName cols cn with
         | none => false
         | some i => f.search (stripMarkup (pyGetD cs (i : Int) "")))

/-- When the scoped filter column cannot be resolved, the rebuild
filtering loop `break`s before keeping anything. -/
theorem filterRows_col_break (split : String → List String) (expected : Nat)
    (f : CPattern) (cn : String) (cols : List String) (uniqNE : Bool)
    (h : getColIdxByName cols cn = none) :
    ∀ raws : List String,
      (filterRows split expected (some f) (some cn) cols uniqNE raws).1 = []
  | [] => rfl
  | r :: rs => by
    have ih := filterRows_col_break split expected f cn cols uniqNE h rs
    simp only [filterRows, h]
    by_cases hl : (split r).length = expected
    · simp [hl]
    · simp [hl, ih]

/-- With dedup mode off, the rebuild filtering loop keeps exactly the
rows passing `keepCellsB` (in all filter configurations, including the
unresolvable-column `break`, which keeps nothing). -/
theorem filterRows_simple_eq (split : String → List String) (expected : Nat)
    (flt : Option CPattern) (fcol : Option String) (cols : List String)
    (raws : List String) :
    (filterRows split expected flt fcol cols false raws).1 =
      (raws.map split).filter (keepCellsB expected flt fcol cols) := by
  match flt, fcol with
  | none, fc =>
    rw [filterRows_none_eq]
    exact List.filter_congr fun cs _ => by simp [keepCellsB]
  | some f, none =>
    rw [filterRows_any_eq]
    exact List.filter_congr fun cs _ => by simp [keepCellsB]
  | some f, some cn =>
    cases h : getColIdxByName cols cn with
    | some i =>
      rw [filterRows_col_eq split expected f cn cols false i h]
      exact List.filter_congr fun cs _ => by simp [keepCellsB, h]
    | none =>
      rw [filterRows_col_break split expected f cn cols false h]
      symm
      exact List.filter_eq_nil_iff.2 fun cs _ => by simp [keepCellsB, h]

/-- The highlight step applied to an optional search pattern. -/
def applySearchO (search : Option CPattern) (rows : List (List String)) :
    List (List String) × List (Nat × Nat) :=
  match search with
  | none => (rows, [])
  | some p => applySearch p 0 rows

/-- The rebuild pipeline with dedup mode off and no sort: split, filter,
highlight. -/
def rebuildRowsSimple (st : St) : List (List String) × List (Nat × Nat) :=
  applySearchO st.search_term
    ((st.raw_rows.map (splitD st.delimiter)).filter
      (keepCellsB st.columns.length st.current_filter st.filter_column_name
        st.columns))

/-- Highlighting one more row at the end extends both the rows and the
match list on the right. -/
theorem applySearch_append_one (p : CPattern) (r : List String) :
    ∀ (rows : List (List String)) (n : Nat),
      applySearch p n (rows ++ [r]) =
        ((applySearch p n rows).1 ++ [(highlightCells p (n + rows.length) 0 r).1],
         (applySearch p n rows).2 ++ (highlightCells p (n + rows.length) 0 r).2)
  | [], n => by simp [applySearch]
  | row :: rows, n => by
    have ih := applySearch_append_one p r rows (n + 1)
    simp [List.cons_append, applySearch, ih, List.length_cons,
      List.append_assoc, Nat.add_assoc, Nat.add_comm, Nat.add_left_comm]

/-- Highlighting preserves the number of rows. -/
theorem applySearch_fst_length (p : CPattern) :
    ∀ (rows : List (List String)) (n : Nat),
      (applySearch p n rows).1.length = rows.length
  | [], _ => rfl
  | row :: rows, n => by
    simp [applySearch, applySearch_fst_length p rows (n + 1)]

/-- With dedup off, no sort and no stale count column, `_update_table`
computes exactly the simple pipeline (and resets the match cursor). -/
theorem updateTable_simple (st : St) (hu : st.unique_column_names = [])
    (hs : st.sort_column = none)
    (hcnt : (st.columns.any (fun c => stripColumnIndicators c = "count")) = false) :
    (updateTable st).1.displayed_rows = (rebuildRowsSimple st).1 ∧
    (updateTable st).1.search_matches = (rebuildRowsSimple st).2 ∧
    (updateTable st).1.columns = st.columns ∧
    (updateTable st).1.raw_rows = st.raw_rows := by
  have hue : st.unique_column_names.isEmpty = true := by simp [hu]
  simp only [updateTable, hue, hcnt, hs, if_true, if_false, Bool.not_true,
    Nat.sub_zero, rebuildRowsSimple, filterRows_simple_eq]
  cases st.search_term <;> simp [applySearchO]

/-- The per-row highlight step of `_add_log_line` at display index
`ri`. -/
def hlRowAt (search : Option CPattern) (ri : Nat) (cs : List String) :
    List String × List (Nat × Nat) :=
  match search with
  | none => (cs, [])
  | some p => highlightCells p ri 0 cs

/-- With dedup off and no sort, `_add_log_line` either drops the line
(returning the state unchanged) or appends the highlighted split cells
as the last displayed row, extending the match list accordingly. -/
theorem addLogLine_simple (st : St) (line : String)
    (hu : st.unique_column_names = []) (hs : st.sort_column = none) :
    addLogLine st line =
      some ((if keepCellsB st.columns.length st.current_filter
              st.filter_column_name st.columns (splitD st.delimiter line) then
          { st with
            displayed_rows := st.displayed_rows ++
              [(hlRowAt st.search_term st.displayed_rows.length
                  (splitD st.delimiter line)).1],
            search_matches := st.search_matches ++
              (hlRowAt st.search_term st.displayed_rows.length
                  (splitD st.delimiter line)).2 }
        else st), []) := by
  have hue : st.unique_column_names.isEmpty = true := by simp [hu]
  simp only [addLogLine, hue, if_true, hs]
  by_cases hlen : (splitD st.delimiter line).length = st.columns.length
  · simp only [hlen, ne_eq, not_true_eq_false, if_false, keepCellsB,
      beq_self_eq_true, Bool.true_and]
    cases hf : st.current_filter with
    | none =>
      simp only [List.insertIdx_length_self, hlRowAt]
      cases st.search_term <;> simp [hlRowAt]
    | some f =>
      cases hc : st.filter_column_name with
      | none =>
        by_cases hm : (splitD st.delimiter line).any
            (fun c => f.search (stripMarkup c))
        · simp only [hm, Bool.not_true, if_false, List.insertIdx_length_self]
          cases st.search_term <;> simp [hlRowAt]
        · simp [hm]
      | some cn =>
        cases hcol : getColIdxByName st.columns cn with
        | none => simp [hcol]
        | some i =>
          by_cases hm : f.search (stripMarkup
              (pyGetD (splitD st.delimiter line) (i : Int) ""))
          · simp only [hcol, hm, Bool.not_true, if_false,
              List.insertIdx_length_self]
            cases st.search_term <;> simp [hlRowAt]
          · simp [hcol, hm]
  · have hlen2 : ((splitD st.delimiter line).length = st.columns.length) = False :=
      eq_false hlen
    simp only [hlen2, keepCellsB]
    simp [hlen]

/-- Steady-state invariant: with dedup off and no sort, sequential
ingestion succeeds, leaves every spec field unchanged, extends the raw
store in arrival order, and keeps the displayed rows and match list
equal to the simple rebuild pipeline over the accumulated raw store. -/
theorem ingestAll_simple (lines : List String) :
    ∀ st : St, st.unique_column_names = [] → st.sort_column = none →
      st.displayed_rows = (rebuildRowsSimple st).1 →
      st.search_matches = (rebuildRowsSimple st).2 →
      ∃ st' : St, ingestAll st lines = some st' ∧
        st'.unique_column_names = st.unique_column_names ∧
        st'.sort_column = st.sort_column ∧
        st'.columns = st.columns ∧
        st'.current_filter = st.current_filter ∧
        st'.filter_column_name = st.filter_column_name ∧
        st'.search_term = st.search_term ∧
        st'.delimiter = st.delimiter ∧
        st'.raw_rows = st.raw_rows ++ lines ∧
        st'.displayed_rows = (rebuildRowsSimple st').1 ∧
        st'.search_matches = (rebuildRowsSimple st').2 := by
  induction lines with
  | nil =>
    intro st hu hs hdisp hmatch
    exact ⟨st, rfl, rfl, rfl, rfl, rfl, rfl, rfl, rfl, by simp, hdisp, hmatch⟩
  | cons l ls ih =>
    intro st hu hs hdisp hmatch
    set st1 : St := { st with raw_rows := st.raw_rows ++ [l] } with hst1
    have hstep := addLogLine_simple st1 l hu hs
    set cells := splitD st.delimiter l with hcells
    set keep := keepCellsB st.columns.length st.current_filter
      st.filter_column_name st.columns cells with hkeep
    set st2 : St := (if keep then
        { st1 with
          displayed_rows := st1.displayed_rows ++
            [(hlRowAt st.search_term st1.displayed_rows.length cells).1],
          search_matches := st1.search_matches ++
            (hlRowAt st.search_term st1.displayed_rows.length cells).2 }
      else st1) with hst2
    have hingest : ingestLine st l = some st2 := by
      simp only [ingestLine, hstep]
      rfl
    have hF : (st2.raw_rows.map (splitD st.delimiter)).filter
        (keepCellsB st.columns.length st.current_filter st.filter_column_name
          st.columns) =
        ((st.raw_rows.map (splitD st.delimiter)).filter
          (keepCellsB st.columns.length st.current_filter st.filter_column_name
            st.columns)) ++ (if keep then [cells] else []) := by
      have hraw2 : st2.raw_rows = st.raw_rows ++ [l] := by
        by_cases hk : keep <;> simp [hst2, hk, hst1]
      rw [hraw2, List.map_append, List.filter_append]
      by_cases hk : keep <;> simp [List.map_cons, List.filter_cons, hkeep, hk, hcells]
    have hdisp2 : st2.displayed_rows = (rebuildRowsSimple st2).1 ∧
        st2.search_matches = (rebuildRowsSimple st2).2 := by
      have hspec2 : st2.current_filter = st.current_filter ∧
          st2.filter_column_name = st.filter_column_name ∧
          st2.search_term = st.search_term ∧
          st2.delimiter = st.delimiter ∧ st2.columns = st.columns := by
        by_cases hk : keep <;> simp [hst2, hk, hst1]
      rw [rebuildRowsSimple, hspec2.1, hspec2.2.1, hspec2.2.2.1,
        hspec2.2.2.2.1, hspec2.2.2.2.2, hF]
      cases hsearch : st.search_term with
      | none =>
        simp only [applySearchO]
        rw [rebuildRowsSimple, hsearch] at hdisp hmatch
        simp only [applySearchO] at hdisp hmatch
        by_cases hk : keep
        · simp [hst2, hk, hst1, hdisp, hmatch, hsearch, hlRowAt]
        · simp [hst2, hk, hst1, hdisp, hmatch]
      | some p =>
        simp only [applySearchO]
        rw [rebuildRowsSimple, hsearch] at hdisp hmatch
        simp only [applySearchO] at hdisp hmatch
        by_cases hk : keep
        · rw [if_pos hk, applySearch_append_one]
          simp [hst2, hk, hst1, hdisp, hmatch, hsearch, hlRowAt]
          rw [applySearch_fst_length]
          exact ⟨rfl, rfl⟩
        · simp [hst2, hk, hst1, hdisp, hmatch, if_neg hk]
    have hu2 : st2.unique_column_names = [] := by
      by_cases hk : keep <;> simp [hst2, hk, hst1, hu]
    have hs2 : st2.sort_column = none := by
      by_cases hk : keep <;> simp [hst2, hk, hst1, hs]
    obtain ⟨st', hrun, h1, h2, h3, h4, h5, h6, h7, h8, h9, h10⟩ :=
      ih st2 hu2 hs2 hdisp2.1 hdisp2.2
    have hfields : st2.unique_column_names = st.unique_column_names ∧
        st2.sort_column = st.sort_column ∧ st2.columns = st.columns ∧
        st2.current_filter = st.current_filter ∧
        st2.filter_column_name = st.filter_column_name ∧
        st2.search_term = st.search_term ∧ st2.delimiter = st.delimiter ∧
        st2.raw_rows = st.raw_rows ++ [l] := by
      by_cases hk : keep <;> simp [hst2, hk, hst1]
    refine ⟨st', ?_, ?_, ?_, ?_, ?_, ?_, ?_, ?_, ?_, h9, h10⟩
    · simp only [ingestAll, hingest, hrun]
    · rw [h1, hfields.1]
    · rw [h2, hfields.2.1]
    · rw [h3, hfields.2.2.1]
    · rw [h4, hfields.2.2.2.1]
    · rw [h5, hfields.2.2.2.2.1]
    · rw [h6, hfields.2.2.2.2.2.1]
    · rw [h7, hfields.2.2.2.2.2.2.1]
    · rw [h8, hfields.2.2.2.2.2.2.2]
      simp

/-- Claim C1 (amended): with no sort column, an empty unique-key set and
no stale count column (the delimiter, filter and search specs
arbitrary), applying the incremental append path to each line in
arrival order starting from an empty view produces Display Rows — and a
match index — identical to one full rebuild over the same accumulated
raw lines.  (As `C1_append_equiv_cex` shows, the equivalence fails once
a sort column is set, and the dedup path's highlight markup breaks it as
well, so the claim cannot hold for all specs.) -/
theorem C1_append_rebuild_equiv (st0 : St) (lines : List String)
    (hu : st0.unique_column_names = []) (hs : st0.sort_column = none)
    (hcnt : (st0.columns.any (fun c => stripColumnIndicators c = "count")) = false)
    (hraw : st0.raw_rows = []) (hdisp : st0.displayed_rows = [])
    (hmatch : st0.search_matches = []) :
    ∃ stA : St, ingestAll st0 lines = some stA ∧
      stA.displayed_rows =
        (updateTable { st0 with raw_rows := lines }).1.displayed_rows ∧
      stA.search_matches =
        (updateTable { st0 with raw_rows := lines }).1.search_matches := by
  have hbase : (rebuildRowsSimple st0).1 = [] ∧ (rebuildRowsSimple st0).2 = [] := by
    rw [rebuildRowsSimple, hraw]
    cases st0.search_term <;> simp [applySearchO, applySearch]
  obtain ⟨st', hrun, h1, h2, h3, h4, h5, h6, h7, h8, h9, h10⟩ :=
    ingestAll_simple lines st0 hu hs (hdisp.trans hbase.1.symm)
      (hmatch.trans hbase.2.symm)
  have hsame : rebuildRowsSimple st' =
      rebuildRowsSimple { st0 with raw_rows := lines } := by
    rw [rebuildRowsSimple, rebuildRowsSimple, h3, h4, h5, h6, h7, h8, hraw]
    simp
  have hup := updateTable_simple { st0 with raw_rows := lines } hu hs hcnt
  exact ⟨st', hrun, by rw [h9, hsame, hup.1], by rw [h10, hsame, hup.2.1]⟩

/-- A comma-delimited two-column session with an any-column filter and a
search, but no sort and no unique key, used by the C1 witness. -/
def stC1w : St :=
  { emptySt with
    columns := ["c1", "c2"]
    delimiter := .str ","
    current_filter := some (litPatternCI "b")
    search_term := some pat3 }

/-- Witness for C1: the amended equivalence applied to a concrete
filtered and searched session over three arriving lines. -/
theorem C1_append_rebuild_equiv_witness :
    stC1w.unique_column_names = [] ∧ stC1w.sort_column = none ∧
    (stC1w.columns.any (fun c => stripColumnIndicators c = "count")) = false ∧
    ∃ stA : St, ingestAll stC1w ["b,3", "x,y", "3,b"] = some stA ∧
      stA.displayed_rows =
        (updateTable { stC1w with
          raw_rows := ["b,3", "x,y", "3,b"] }).1.displayed_rows ∧
      stA.search_matches =
        (updateTable { stC1w with
          raw_rows := ["b,3", "x,y", "3,b"] }).1.search_matches :=
  ⟨rfl, rfl, by decide,
    C1_append_rebuild_equiv stC1w ["b,3", "x,y", "3,b"] rfl rfl (by decide)
      rfl rfl rfl⟩

/-! ## Sorted-insert machinery for `_bisect_left` -/

/-- Inserting with `ordInsert` is a permutation of consing. -/
theorem ordInsert_perm (le : α → α → Bool) (x : α) :
    ∀ l : List α, (ordInsert le x l).Perm (x :: l)
  | [] => List.Perm.refl _
  | y :: ys => by
    unfold ordInsert
    by_cases h : le x y
    · simp [h]
    · simp only [h, if_false, Bool.false_eq_true]
      exact ((ordInsert_perm le x ys).cons y).trans (List.Perm.swap x y ys)

/-- Stable sorting permutes the input. -/
theorem stableSort_perm (le : α → α → Bool) :
    ∀ l : List α, (stableSort le l).Perm l
  | [] => List.Perm.refl _
  | x :: xs => (ordInsert_perm le x _).trans ((stableSort_perm le xs).cons x)

/-- From an ascending chain, the head is below every later element
(given transitivity of the chain relation). -/
theorem chain'_head_all (rel : α → α → Prop)
    (htrans : ∀ a b c, rel a b → rel b c → rel a c) (x : α) :
    ∀ l : List α, List.Chain' rel (x :: l) → ∀ y ∈ l, rel x y
  | [], _, y, hy => absurd hy (List.not_mem_nil y)
  | z :: zs, h, y, hy => by
    have h1 : rel x z := (List.chain'_cons.1 h).1
    rcases List.mem_cons.1 hy with rfl | hy'
    · exact h1
    · exact htrans x z y h1
        (chain'_head_all rel htrans z zs (List.chain'_cons.1 h).2 y hy')

/-- `ordInsert` with the complement comparison preserves ascending
chains (asymmetry of the strict comparison suffices). -/
theorem ordInsert_chain (lt : α → α → Bool)
    (hasymm : ∀ a b, lt a b = true → lt b a = false) (x : α) :
    ∀ l : List α, List.Chain' (fun a b => lt b a = false) l →
      List.Chain' (fun a b => lt b a = false)
        (ordInsert (fun a b => !lt b a) x l)
  | [], _ => List.chain'_singleton x
  | y :: ys, h => by
    obtain ⟨hh, ht⟩ := List.chain'_cons'.1 h
    unfold ordInsert
    by_cases hxy : lt y x
    · simp only [hxy, Bool.not_true, if_false, Bool.false_eq_true]
      refine List.chain'_cons'.2 ⟨?_, ordInsert_chain lt hasymm x ys ht⟩
      intro z hz
      cases ys with
      | nil => simp [ordInsert] at hz; subst hz; exact hasymm y x hxy
      | cons w ws =>
        unfold ordInsert at hz
        by_cases hw : lt w x
        · simp only [hw, Bool.not_true, if_false, Bool.false_eq_true,
            List.head?_cons, Option.mem_def, Option.some.injEq] at hz
          subst hz
          exact hh w rfl
        · simp only [hw, Bool.not_false, if_true, List.head?_cons,
            Option.mem_def, Option.some.injEq] at hz
          subst hz
          exact hasymm y x hxy
    · have hxy' : lt y x = false := eq_false_of_ne_true hxy
      simp only [hxy', Bool.not_false, if_true]
      exact List.chain'_cons'.2 ⟨fun z hz => by
        simp only [List.head?_cons, Option.mem_def, Option.some.injEq] at hz
        subst hz; exact hxy', h⟩

/-- Stable sorting with the complement comparison produces an ascending
chain. -/
theorem stableSort_chain (lt : α → α → Bool)
    (hasymm : ∀ a b, lt a b = true → lt b a = false) :
    ∀ l : List α, List.Chain' (fun a b => lt b a = false)
      (stableSort (fun a b => !lt b a) l)
  | [] => List.chain'_nil
  | x :: xs => ordInsert_chain lt hasymm x _ (stableSort_chain lt hasymm xs)

/-- Sorting an already ascending chain is the identity. -/
theorem stableSort_sorted_id (lt : α → α → Bool) :
    ∀ l : List α, List.Chain' (fun a b => lt b a = false) l →
      stableSort (fun a b => !lt b a) l = l
  | [], _ => rfl
  | x :: xs, h => by
    obtain ⟨hh, ht⟩ := List.chain'_cons'.1 h
    rw [stableSort, stableSort_sorted_id lt xs ht]
    cases xs with
    | nil => rfl
    | cons y ys =>
      unfold ordInsert
      rw [hh y rfl]
      simp

/-- On an ascending chain, the scan `insPt` computes the number of
elements strictly below the probe (the `bisect_left` index). -/
theorem insPt_sorted_countP (lt : α → α → Bool)
    (hneg : ∀ v x y, lt x v = false → lt y x = false → lt y v = false) (v : α) :
    ∀ l : List α, List.Chain' (fun a b => lt b a = false) l →
      insPt lt l v = l.countP (fun x => lt x v)
  | [], _ => rfl
  | x :: xs, h => by
    obtain ⟨hh, ht⟩ := List.chain'_cons'.1 h
    by_cases hx : lt x v
    · rw [insPt, if_pos hx, insPt_sorted_countP lt hneg v xs ht,
        List.countP_cons, if_pos hx]
    · have hx' : lt x v = false := eq_false_of_ne_true hx
      have hall : ∀ y ∈ xs, (fun x => lt x v) y = false := by
        intro y hy
        have hyx : lt y x = false :=
          chain'_head_all (fun a b => lt b a = false)
            (fun a b c h1 h2 => hneg a b c h1 h2) x xs h y hy
        exact hneg v x y hx' hyx
      have hzero : xs.countP (fun x => lt x v) = 0 :=
        List.countP_eq_zero.2 (fun y hy => by simp [hall y hy])
      rw [insPt, if_neg hx, List.countP_cons, if_neg hx, hzero]

/-- Inserting the probe at its `insPt` position keeps an ascending chain
ascending. -/
theorem insPt_insert_chain (lt : α → α → Bool)
    (hasymm : ∀ a b, lt a b = true → lt b a = false) (v : α) :
    ∀ l : List α, List.Chain' (fun a b => lt b a = false) l →
      List.Chain' (fun a b => lt b a = false)
        (List.insertIdx (insPt lt l v) v l)
  | [], _ => List.chain'_singleton v
  | x :: xs, h => by
    obtain ⟨hh, ht⟩ := List.chain'_cons'.1 h
    by_cases hx : lt x v
    · rw [insPt, if_pos hx, List.insertIdx_succ_cons]
      refine List.chain'_cons'.2 ⟨?_, insPt_insert_chain lt hasymm v xs ht⟩
      intro z hz
      cases xs with
      | nil =>
        simp only [insPt, List.insertIdx_zero, List.head?_cons,
          Option.mem_def, Option.some.injEq] at hz
        subst hz
        exact hasymm x v hx
      | cons y ys =>
        by_cases hy : lt y v
        · rw [insPt, if_pos hy, List.insertIdx_succ_cons] at hz
          simp only [List.head?_cons, Option.mem_def, Option.some.injEq] at hz
          subst hz
          exact hh y rfl
        · rw [insPt, if_neg hy, List.insertIdx_zero] at hz
          simp only [List.head?_cons, Option.mem_def, Option.some.injEq] at hz
          subst hz
          exact hasymm x v hx
    · rw [insPt, if_neg hx, List.insertIdx_zero]
      exact List.chain'_cons'.2 ⟨fun z hz => by
        simp only [List.head?_cons, Option.mem_def, Option.some.injEq] at hz
        subst hz
        exact eq_false_of_ne_true hx, h⟩

/-- Inserting the probe after the prefix of elements not below it keeps
a descending chain descending. -/
theorem countGe_insert_chain_desc (lt : α → α → Bool)
    (hasymm : ∀ a b, lt a b = true → lt b a = false)
    (hneg : ∀ v x y, lt x v = false → lt y x = false → lt y v = false)
    (hlift : ∀ v x y, lt x v = true → lt x y = false → lt y v = true) (v : α) :
    ∀ l : List α, List.Chain' (fun a b => lt a b = false) l →
      List.Chain' (fun a b => lt a b = false)
        (List.insertIdx (l.countP (fun x => !lt x v)) v l)
  | [], _ => List.chain'_singleton v
  | x :: xs, h => by
    obtain ⟨hh, ht⟩ := List.chain'_cons'.1 h
    by_cases hx : lt x v
    · have hzero : xs.countP (fun x => !lt x v) = 0 :=
        List.countP_eq_zero.2 (fun y hy => by
          have hxy : lt x y = false :=
            chain'_head_all (fun a b => lt a b = false)
              (fun a b c h1 h2 => hneg c b a h2 h1) x xs h y hy
          simp [hlift v x y hx hxy])
      rw [List.countP_cons, hzero, if_neg (by simp [hx]), List.insertIdx_zero]
      exact List.chain'_cons'.2 ⟨fun z hz => by
        simp only [List.head?_cons, Option.mem_def, Option.some.injEq] at hz
        subst hz
        exact hasymm x v hx, h⟩
    · have hx' : lt x v = false := eq_false_of_ne_true hx
      rw [List.countP_cons, if_pos (by simp [hx']), List.insertIdx_succ_cons]
      refine List.chain'_cons'.2
        ⟨?_, countGe_insert_chain_desc lt hasymm hneg hlift v xs ht⟩
      intro z hz
      cases xs with
      | nil =>
        simp only [List.countP_nil, List.insertIdx_zero, List.head?_cons,
          Option.mem_def, Option.some.injEq] at hz
        subst hz
        exact hx'
      | cons y ys =>
        by_cases hy : lt y v
        · have hzero : ((y :: ys).countP (fun x => !lt x v)) = 0 :=
            List.countP_eq_zero.2 (fun w hw => by
              rcases List.mem_cons.1 hw with rfl | hw'
              · simp [hy]
              · have hyw : lt y w = false :=
                  chain'_head_all (fun a b => lt a b = false)
                    (fun a b c h1 h2 => hneg c b a h2 h1) y ys ht w hw'
                simp [hlift v y w hy hyw])
          rw [hzero, List.insertIdx_zero] at hz
          simp only [List.head?_cons, Option.mem_def, Option.some.injEq] at hz
          subst hz
          exact hx'
        · have hy' : lt y v = false := eq_false_of_ne_true hy
          rw [List.countP_cons, if_pos (by simp [hy']),
            List.insertIdx_succ_cons] at hz
          simp only [List.head?_cons, Option.mem_def, Option.some.injEq] at hz
          subst hz
          exact hh y rfl

/-! ## Order facts for the Python string comparison -/

/-- The string comparison is asymmetric. -/
theorem strLtCL_asymm : ∀ a b : List Char, strLtCL a b = true → strLtCL b a = false
  | [], [] => by simp [strLtCL]
  | [], _ :: _ => by simp [strLtCL]
  | _ :: _, [] => by simp [strLtCL]
  | a :: as, b :: bs => by
    simp only [strLtCL]
    by_cases hab : a < b
    · intro _
      simp [lt_asymm hab, hab]
    · by_cases hba : b < a
      · simp [hab, hba]
      · simp only [hab, hba, if_false]
        exact strLtCL_asymm as bs

/-- Non-strictness of the string comparison is transitive. -/
theorem strLtCL_negtrans :
    ∀ a b c : List Char, strLtCL a b = false → strLtCL b c = false →
      strLtCL a c = false
  | [], [], _, _, h2 => h2
  | [], _ :: _, _, h1, _ => by simp [strLtCL] at h1
  | _ :: _, [], [], _, _ => by simp [strLtCL]
  | _ :: _, [], _ :: _, _, h2 => by simp [strLtCL] at h2
  | x :: xs, y :: ys, [], _, _ => by simp [strLtCL]
  | x :: xs, y :: ys, z :: zs, h1, h2 => by
    simp only [strLtCL] at h1 h2 ⊢
    by_cases hxy : x < y
    · simp [hxy] at h1
    · by_cases hyz : y < z
      · simp [hyz] at h2
      · have hyx : y ≤ x := le_of_not_lt hxy
        have hzy : z ≤ y := le_of_not_lt hyz
        have hzx : z ≤ x := le_trans hzy hyx
        have hxz : ¬ x < z := not_lt.2 hzx
        simp only [hxz, if_false]
        by_cases hzx' : z < x
        · simp [hzx']
        · have hxz2 : x ≤ z := le_of_not_lt hzx'
          have hxeq : x = z := le_antisymm hxz2 hzx
          have hxy2 : x ≤ y := hxeq.le.trans hzy
          have hyeq1 : y = x := le_antisymm hyx hxy2
          have hyx' : ¬ y < x := by rw [hyeq1]; exact lt_irrefl x
          have hzy' : ¬ z < y := by rw [← hxeq, hyeq1]; exact lt_irrefl x
          simp only [hxy, hyx', if_false] at h1
          simp only [hyz, hzy', if_false] at h2
          simp only [hzx', if_false]
          exact strLtCL_negtrans xs ys zs h1 h2

/-- An element at most `x` stays strictly below anything `x` is strictly
below. -/
theorem strLtCL_lift :
    ∀ v x y : List Char, strLtCL x v = true → strLtCL x y = false →
      strLtCL y v = true
  | c :: cs, [], [], _, _ => by simp [strLtCL]
  | [], [], _, h1, _ => by simp [strLtCL] at h1
  | _, [], _ :: _, _, h2 => by simp [strLtCL] at h2
  | [], _ :: _, _, h1, _ => by simp [strLtCL] at h1
  | c :: cs, a :: as, [], _, _ => by simp [strLtCL]
  | c :: cs, a :: as, b :: bs, h1, h2 => by
    simp only [strLtCL] at h1 h2 ⊢
    by_cases hab : a < b
    · simp [hab] at h2
    · have hba : b ≤ a := le_of_not_lt hab
      by_cases hac : a < c
      · have hbc : b < c := lt_of_le_of_lt hba hac
        simp [hbc]
      · by_cases hca : c < a
        · simp [hac, hca] at h1
        · have hceq : a = c := le_antisymm (le_of_not_lt hca) (le_of_not_lt hac)
          simp only [hac, hca, if_false] at h1
          by_cases hba' : b < a
          · have hbc : b < c := hceq ▸ hba'
            simp [hbc]
          · have hbeq : a = b := le_antisymm (le_of_not_lt hba') (le_of_not_lt hab)
            have hbc : ¬ b < c := hceq ▸ hbeq ▸ lt_irrefl a
            have hcb : ¬ c < b := hceq ▸ hbeq ▸ lt_irrefl a
            simp only [hab, hba', if_false] at h2
            simp only [hbc, hcb, if_false]
            exact strLtCL_lift cs as bs h1 h2

/-- Mapping commutes with insertion at an index. -/
theorem map_insertIdx (f : α → β) (a : α) :
    ∀ (n : Nat) (l : List α),
      (List.insertIdx n a l).map f = List.insertIdx n (f a) (l.map f)
  | 0, l => by simp [List.insertIdx_zero]
  | n + 1, [] => rfl
  | n + 1, b :: bs => by
    simp [List.insertIdx_succ_cons, map_insertIdx f a n bs]

/-- Asymmetry of the strict `Nat` comparison in `Bool` form. -/
theorem natLt_asymm : ∀ a b : Nat, decide (a < b) = true → decide (b < a) = false := by
  intro a b h
  simp at h ⊢
  omega

/-- Transitivity of the non-strict `Nat` comparison in `Bool` form. -/
theorem natLt_negtrans :
    ∀ v x y : Nat, decide (x < v) = false → decide (y < x) = false →
      decide (y < v) = false := by
  intro v x y h1 h2
  simp at h1 h2 ⊢
  omega

/-- An element at most `x` stays strictly below anything `x` is strictly
below (`Nat`, `Bool` form). -/
theorem natLt_lift :
    ∀ v x y : Nat, decide (x < v) = true → decide (x < y) = false →
      decide (y < v) = true := by
  intro v x y h1 h2
  simp at h1 h2 ⊢
  omega

/-- Asymmetry of the string comparison. -/
theorem strLtB_asymm : ∀ a b : String, strLtB a b = true → strLtB b a = false :=
  fun a b h => strLtCL_asymm a.toList b.toList h

/-- Transitivity of the non-strict string comparison. -/
theorem strLtB_negtrans :
    ∀ v x y : String, strLtB x v = false → strLtB y x = false →
      strLtB y v = false :=
  fun v x y h1 h2 => strLtCL_negtrans y.toList x.toList v.toList h2 h1

/-- An element at most `x` stays strictly below anything `x` is strictly
below (strings). -/
theorem strLtB_lift :
    ∀ v x y : String, strLtB x v = true → strLtB x y = false →
      strLtB y v = true :=
  fun v x y h1 h2 => strLtCL_lift v.toList x.toList y.toList h1 h2

/-- Asymmetry of the strict `Int` comparison in `Bool` form. -/
theorem intLt_asymm : ∀ a b : Int, decide (a < b) = true → decide (b < a) = false := by
  intro a b h
  simp at h ⊢
  omega

/-- Transitivity of the non-strict `Int` comparison in `Bool` form. -/
theorem intLt_negtrans :
    ∀ v x y : Int, decide (x < v) = false → decide (y < x) = false →
      decide (y < v) = false := by
  intro v x y h1 h2
  simp at h1 h2 ⊢
  omega

/-- An element at most `x` stays strictly below anything `x` is strictly
below (`Int`, `Bool` form). -/
theorem intLt_lift :
    ∀ v x y : Int, decide (x < v) = true → decide (x < y) = false →
      decide (y < v) = true := by
  intro v x y h1 h2
  simp at h1 h2 ⊢
  omega

/-- A digit is not whitespace. -/
theorem digit_not_ws (c : Char) (h : c.isDigit = true) : c.isWhitespace = false := by
  rcases Bool.eq_false_or_eq_true c.isWhitespace with h2 | h2
  · simp [Char.isWhitespace] at h2
    rcases h2 with ((rfl | rfl) | rfl) | rfl <;> exact absurd h (by decide)
  · exact h2

/-- A digit is not a grouping underscore (`Bool` form). -/
theorem digit_ne_underscore (c : Char) (h : c.isDigit = true) : (c != '_') = true := by
  have h1 : ¬ c = '_' := by
    intro hc
    subst hc
    exact absurd h (by decide)
  simpa using h1

/-- A digit is not the plus sign. -/
theorem digit_ne_plus (c : Char) (h : c.isDigit = true) : ¬ c = '+' := by
  intro hc
  subst hc
  exact absurd h (by decide)

/-- A digit is not the minus sign. -/
theorem digit_ne_minus (c : Char) (h : c.isDigit = true) : ¬ c = '-' := by
  intro hc
  subst hc
  exact absurd h (by decide)

/-- A digit is not a grouping underscore. -/
theorem digit_ne_underscore2 (c : Char) (h : c.isDigit = true) : ¬ c = '_' := by
  intro hc
  subst hc
  exact absurd h (by decide)

/-- A pure digit run is a valid integer-literal tail. -/
theorem intDigitsOk_of_digits : ∀ l : List Char, (∀ c ∈ l, c.isDigit = true) →
    intDigitsOk l = true
  | [], _ => rfl
  | c :: cs, h => by
    have hc : c.isDigit = true := h c (List.mem_cons_self c cs)
    have hcs : ∀ c' ∈ cs, c'.isDigit = true :=
      fun c' hc' => h c' (List.mem_cons_of_mem c hc')
    unfold intDigitsOk
    rw [if_neg (digit_ne_underscore2 c hc), hc, intDigitsOk_of_digits cs hcs]
    rfl

/-- Whitespace-stripping leaves a pure digit run unchanged. -/
theorem dropWhile_digits (l : List Char) (h : ∀ c ∈ l, c.isDigit = true) :
    l.dropWhile Char.isWhitespace = l := by
  cases l with
  | nil => rfl
  | cons c cs =>
    rw [List.dropWhile_cons, if_neg]
    rw [digit_not_ws c (h c (List.mem_cons_self c cs))]
    simp

/-- On a `str.isnumeric()` string, Python `int` returns the digit
value. -/
theorem pyIntOf_of_isNumeric (s : String) (h : pyIsNumeric s = true) :
    pyIntOf s = some ((pyNatOf s : Nat) : Int) := by
  have h' := h
  simp only [pyIsNumeric, Bool.and_eq_true, Bool.not_eq_true'] at h'
  have hall : ∀ c ∈ s.toList, c.isDigit = true := by
    simpa [List.all_eq_true] using h'.2
  have h1 : s.toList.dropWhile Char.isWhitespace = s.toList :=
    dropWhile_digits _ hall
  have h2 : s.toList.reverse.dropWhile Char.isWhitespace = s.toList.reverse :=
    dropWhile_digits _ (fun c hc => hall c (List.mem_reverse.1 hc))
  unfold pyIntOf
  rw [h1, h2, List.reverse_reverse]
  cases hl : s.toList with
  | nil =>
    exfalso
    rw [hl] at h'
    exact absurd h'.1 (by simp)
  | cons c rest =>
    rw [hl] at hall
    have hc : c.isDigit = true := hall c (List.mem_cons_self c rest)
    have hrest : ∀ c' ∈ rest, c'.isDigit = true :=
      fun c' hc' => hall c' (List.mem_cons_of_mem c hc')
    simp only [if_neg (digit_ne_plus c hc), if_neg (digit_ne_minus c hc)]
    rw [if_pos (by rw [hc, intDigitsOk_of_digits rest hrest]; rfl)]
    rw [List.filter_eq_self.2 (fun a ha => digit_ne_underscore a (hall a ha))]
    rw [one_mul, pyNatOf, hl]

/-- On a numeric string the conversion value is the digit value. -/
theorem pyIntValD_of_isNumeric (s : String) (h : pyIsNumeric s = true) :
    pyIntValD s = ((pyNatOf s : Nat) : Int) := by
  rw [pyIntValD, pyIntOf_of_isNumeric s h]
  rfl

/-- When every displayed value converts, the conversion list is the
pointwise conversion. -/
theorem intsOf_eq_map : ∀ keys : List String,
    keys.all (fun s => (pyIntOf s).isSome) = true →
    intsOf keys = some (keys.map pyIntValD)
  | [], _ => rfl
  | s :: rest, h => by
    simp only [List.all_cons, Bool.and_eq_true] at h
    obtain ⟨v, hv⟩ := Option.isSome_iff_exists.1 h.1
    unfold intsOf
    rw [hv, intsOf_eq_map rest h.2]
    simp [pyIntValD, hv]

/-- With dedup off, no search, no filter and a resolvable sort column,
`_add_log_line` on a length-correct line computes the `_bisect_left`
index over the displayed rows' markup-stripped sort-column values and
inserts the split cells there; a `none` bisect result (the uncaught
`int()` conversion error) aborts the whole call. -/
theorem addLogLine_sorted (st : St) (line : String) (sc : String) (i : Nat)
    (hu : st.unique_column_names = []) (hsearch : st.search_term = none)
    (hfilt : st.current_filter = none) (hsort : st.sort_column = some sc)
    (hcol : getColIdxByName st.columns sc = some i)
    (hlen : (splitD st.delimiter line).length = st.columns.length) :
    addLogLine st line =
      (bisectLeftModel
          (st.displayed_rows.map (fun r => stripMarkup (pyGetD r (i : Int) "")))
          (stripMarkup (pyGetD (splitD st.delimiter line) (i : Int) ""))
          st.sort_reverse).map
        (fun n =>
          ({ st with displayed_rows :=
              List.insertIdx n (splitD st.delimiter line) st.displayed_rows },
           ([] : List String))) := by
  have hue : st.unique_column_names.isEmpty = true := by simp [hu]
  simp only [addLogLine, hue, if_true, hfilt, hsort, hcol]
  rw [if_neg (by simp [hlen])]
  simp only [Bool.not_true, Bool.false_eq_true, if_false, if_true]
  cases hb : bisectLeftModel
      (st.displayed_rows.map (fun r => stripMarkup (pyGetD r (i : Int) "")))
      (stripMarkup (pyGetD (splitD st.delimiter line) (i : Int) ""))
      st.sort_reverse with
  | none => simp [hb]
  | some n => simp [hb, hsearch]

/-- Ascending numeric case of `_bisect_left`: when the arriving value is
numeric and every displayed sort value converts with `int` (plain,
signed, padded or underscore-grouped literals), the index is the number
of displayed values whose integer value is below the arriving one, and
inserting there preserves the ascending integer order. -/
theorem bisect_numeric_asc (keys : List String) (key : String)
    (hnum : pyIsNumeric key = true)
    (hall : keys.all (fun s => (pyIntOf s).isSome) = true)
    (hchain : List.Chain'
      (fun a b => decide (pyIntValD b < pyIntValD a) = false) keys) :
    bisectLeftModel keys key false =
      some (keys.countP (fun x => decide (pyIntValD x < pyIntValD key))) ∧
    List.Chain' (fun a b => decide (pyIntValD b < pyIntValD a) = false)
      (List.insertIdx (keys.countP (fun x => decide (pyIntValD x < pyIntValD key)))
        key keys) := by
  have hchain' : List.Chain'
      (fun a b : Int => decide (b < a) = false) (keys.map pyIntValD) :=
    (List.chain'_map pyIntValD).2 hchain
  have hle : (fun a b : Int => decide (a ≤ b)) =
      fun a b : Int => !decide (b < a) := by
    funext a b
    by_cases h : a ≤ b
    · have : ¬ b < a := by omega
      simp [h, this]
    · have : b < a := by omega
      simp [h, this]
  have hsorted := stableSort_sorted_id (fun x y : Int => decide (x < y))
      (keys.map pyIntValD) hchain'
  have hinspt := insPt_sorted_countP (fun x y : Int => decide (x < y))
      intLt_negtrans (pyIntValD key) (keys.map pyIntValD) hchain'
  have hcnt : (keys.map pyIntValD).countP (fun x => decide (x < pyIntValD key)) =
      keys.countP (fun x => decide (pyIntValD x < pyIntValD key)) := by
    rw [List.countP_map]
    rfl
  have hv : ((pyNatOf key : Nat) : Int) = pyIntValD key :=
    (pyIntValD_of_isNumeric key hnum).symm
  constructor
  · simp only [bisectLeftModel, hnum, if_true]
    rw [intsOf_eq_map keys hall]
    dsimp only
    rw [hv, hle, hsorted, hinspt, hcnt]
    simp
  · have hchainIns := insPt_insert_chain (fun x y : Int => decide (x < y))
        intLt_asymm (pyIntValD key) (keys.map pyIntValD) hchain'
    rw [hinspt, hcnt, ← map_insertIdx] at hchainIns
    exact (List.chain'_map pyIntValD).1 hchainIns

/-- Descending numeric case of `_bisect_left`: the index is the number
of displayed values whose integer value is not below the arriving one,
and inserting there preserves the descending integer order. -/
theorem bisect_numeric_desc (keys : List String) (key : String)
    (hnum : pyIsNumeric key = true)
    (hall : keys.all (fun s => (pyIntOf s).isSome) = true)
    (hchain : List.Chain'
      (fun a b => decide (pyIntValD a < pyIntValD b) = false) keys) :
    bisectLeftModel keys key true =
      some (keys.countP (fun x => !decide (pyIntValD x < pyIntValD key))) ∧
    List.Chain' (fun a b => decide (pyIntValD a < pyIntValD b) = false)
      (List.insertIdx (keys.countP (fun x => !decide (pyIntValD x < pyIntValD key)))
        key keys) := by
  have hchainD : List.Chain'
      (fun a b : Int => decide (a < b) = false) (keys.map pyIntValD) :=
    (List.chain'_map pyIntValD).2 hchain
  have hle : (fun a b : Int => decide (a ≤ b)) =
      fun a b : Int => !decide (b < a) := by
    funext a b
    by_cases h : a ≤ b
    · have : ¬ b < a := by omega
      simp [h, this]
    · have : b < a := by omega
      simp [h, this]
  have hschain := stableSort_chain (fun x y : Int => decide (x < y))
      intLt_asymm (keys.map pyIntValD)
  have hinspt := insPt_sorted_countP (fun x y : Int => decide (x < y))
      intLt_negtrans (pyIntValD key) _ hschain
  have hperm : (stableSort (fun a b : Int => !decide (b < a))
      (keys.map pyIntValD)).Perm (keys.map pyIntValD) :=
    stableSort_perm _ _
  have hcntsorted :
      (stableSort (fun a b : Int => !decide (b < a)) (keys.map pyIntValD)).countP
          (fun x => decide (x < pyIntValD key)) =
        (keys.map pyIntValD).countP (fun x => decide (x < pyIntValD key)) :=
    hperm.countP_eq _
  have hsplit := List.length_eq_countP_add_countP
      (fun x : Int => decide (x < pyIntValD key)) (keys.map pyIntValD)
  have hcompl : (keys.map pyIntValD).countP
        (fun a : Int => decide (¬ (decide (a < pyIntValD key) = true))) =
      (keys.map pyIntValD).countP (fun a : Int => !decide (a < pyIntValD key)) :=
    List.countP_congr (fun a _ => by by_cases h : a < pyIntValD key <;> simp [h])
  have hidx : (keys.map pyIntValD).length -
      (keys.map pyIntValD).countP (fun x => decide (x < pyIntValD key)) =
      (keys.map pyIntValD).countP (fun x => !decide (x < pyIntValD key)) := by
    rw [hcompl] at hsplit
    omega
  have hcnt2 : (keys.map pyIntValD).countP (fun x => !decide (x < pyIntValD key)) =
      keys.countP (fun x => !decide (pyIntValD x < pyIntValD key)) := by
    rw [List.countP_map]
    rfl
  have hv : ((pyNatOf key : Nat) : Int) = pyIntValD key :=
    (pyIntValD_of_isNumeric key hnum).symm
  constructor
  · simp only [bisectLeftModel, hnum, if_true]
    rw [intsOf_eq_map keys hall]
    dsimp only
    rw [hv, hle, hinspt, hcntsorted, List.length_map,
      ← List.length_map keys pyIntValD, hidx, hcnt2]
  · have hchainIns := countGe_insert_chain_desc (fun x y : Int => decide (x < y))
        intLt_asymm intLt_negtrans intLt_lift (pyIntValD key)
        (keys.map pyIntValD) hchainD
    rw [hcnt2, ← map_insertIdx] at hchainIns
    exact (List.chain'_map pyIntValD).1 hchainIns

/-- Ascending string case of `_bisect_left`: when the arriving value is
not numeric, the index is the number of displayed values
lexicographically below it, and inserting there preserves the ascending
string order (whatever the displayed values are). -/
theorem bisect_string_asc (keys : List String) (key : String)
    (hnum : pyIsNumeric key = false)
    (hchain : List.Chain' (fun a b => strLtB b a = false) keys) :
    bisectLeftModel keys key false =
      some (keys.countP (fun x => strLtB x key)) ∧
    List.Chain' (fun a b => strLtB b a = false)
      (List.insertIdx (keys.countP (fun x => strLtB x key)) key keys) := by
  have hle : strLeB = fun a b => !strLtB b a := rfl
  have hsorted := stableSort_sorted_id strLtB keys hchain
  have hinspt := insPt_sorted_countP strLtB strLtB_negtrans key keys hchain
  constructor
  · simp only [bisectLeftModel, hnum, Bool.false_eq_true, if_false]
    rw [hle, hsorted, hinspt]
  · have hchainIns := insPt_insert_chain strLtB strLtB_asymm key keys hchain
    rw [hinspt] at hchainIns
    exact hchainIns

/-- Descending string case of `_bisect_left`. -/
theorem bisect_string_desc (keys : List String) (key : String)
    (hnum : pyIsNumeric key = false)
    (hchain : List.Chain' (fun a b => strLtB a b = false) keys) :
    bisectLeftModel keys key true =
      some (keys.countP (fun x => !strLtB x key)) ∧
    List.Chain' (fun a b => strLtB a b = false)
      (List.insertIdx (keys.countP (fun x => !strLtB x key)) key keys) := by
  have hle : strLeB = fun a b => !strLtB b a := rfl
  have hschain := stableSort_chain strLtB strLtB_asymm keys
  have hinspt := insPt_sorted_countP strLtB strLtB_negtrans key _ hschain
  have hperm : (stableSort (fun a b => !strLtB b a) keys).Perm keys :=
    stableSort_perm _ _
  have hcntsorted : (stableSort (fun a b => !strLtB b a) keys).countP
        (fun x => strLtB x key) = keys.countP (fun x => strLtB x key) :=
    hperm.countP_eq _
  have hsplit := List.length_eq_countP_add_countP
      (fun x => strLtB x key) keys
  have hcompl : keys.countP (fun a => decide (¬ (strLtB a key = true))) =
      keys.countP (fun a => !strLtB a key) :=
    List.countP_congr (fun a _ => by cases h : strLtB a key <;> simp [h])
  have hidx : keys.length - keys.countP (fun x => strLtB x key) =
      keys.countP (fun x => !strLtB x key) := by
    rw [hcompl] at hsplit
    omega
  constructor
  · simp only [bisectLeftModel, hnum, Bool.false_eq_true, if_false]
    rw [hle, hinspt, hcntsorted, hidx]
    simp
  · exact countGe_insert_chain_desc strLtB strLtB_asymm strLtB_negtrans
      strLtB_lift key keys hchain

/-- Mixed numeric case of `_bisect_left`: a numeric arriving value with
a displayed value that is not an integer literal raises an uncaught
`ValueError` (modelled as `none`). -/
theorem bisect_mixed_none (keys : List String) (key : String) (rev : Bool)
    (hnum : pyIsNumeric key = true) (hnone : intsOf keys = none) :
    bisectLeftModel keys key rev = none := by
  simp [bisectLeftModel, hnum, hnone]

/-! ## Claim C4 -/

/-- Counterexample to claim C4 as stated: appending `10`, then `9`, then
`a` under ascending sort leaves the display in the order `9, 10, a`.
After the third arrival the compared values are not all numeric, so by
the claim they should be ordered as strings — but `9` precedes `10`
while `"9" ≤ "10"` is false.  The code chose the numeric interpretation
for the earlier arrivals because the *arriving* value was numeric, not
because every compared value was. -/
theorem C4_sorted_insert_cex :
    (ingestAll stC1 ["10", "9", "a"]).map (fun s => s.displayed_rows) =
      some [["9"], ["10"], ["a"]] ∧
    strLeB "9" "10" = false ∧
    pyIsNumeric "a" = false := by
  refine ⟨rfl, by decide, by decide⟩

/-- Claim C4 (amended): with a resolvable sort column (dedup, search and
filter off), the incremental append computes the insertion index with
`_bisect_left` over the displayed rows' markup-stripped sort-column
values under the configured direction and inserts the split row there.
The comparison is by integer value when the *arriving* value is numeric
— every displayed value is then converted with `int`, which accepts
signed, whitespace-padded and underscore-grouped literals (the signed
`-3` example below) and raises an uncaught error, aborting the append,
only when some displayed value is not an integer literal at all — and
lexicographic otherwise.  Under a homogeneous interpretation (every
displayed value convertible under a numeric arrival, or a non-numeric
arrival over a string-ordered display) the computed index is the
standard leftmost (ascending) or symmetric (descending) insertion point
and inserting there preserves the configured order, so the display
stays sorted after every arrival; the final conjuncts check the claim's
`3, 1, 2` examples. -/
theorem C4_bisect_insert (st : St) (line : String) (sc : String) (i : Nat)
    (hu : st.unique_column_names = []) (hsearch : st.search_term = none)
    (hfilt : st.current_filter = none) (hsort : st.sort_column = some sc)
    (hcol : getColIdxByName st.columns sc = some i)
    (hlen : (splitD st.delimiter line).length = st.columns.length) :
    (addLogLine st line =
      (bisectLeftModel
          (st.displayed_rows.map (fun r => stripMarkup (pyGetD r (i : Int) "")))
          (stripMarkup (pyGetD (splitD st.delimiter line) (i : Int) ""))
          st.sort_reverse).map
        (fun n =>
          ({ st with displayed_rows :=
              List.insertIdx n (splitD st.delimiter line) st.displayed_rows },
           ([] : List String)))) ∧
    (pyIsNumeric
        (stripMarkup (pyGetD (splitD st.delimiter line) (i : Int) "")) = true →
      intsOf (st.displayed_rows.map
          (fun r => stripMarkup (pyGetD r (i : Int) ""))) = none →
      addLogLine st line = none) ∧
    (pyIntOf "-3" = some (-3) ∧ pyIsNumeric "-3" = false ∧
      (addLogLine { stC1 with displayed_rows := [["-3"]] } "5").map
        (fun r => r.1.displayed_rows) = some [["-3"], ["5"]]) ∧
    (∀ (keys : List String) (key : String),
      pyIsNumeric key = true →
      keys.all (fun s => (pyIntOf s).isSome) = true →
      List.Chain' (fun a b => decide (pyIntValD b < pyIntValD a) = false) keys →
      bisectLeftModel keys key false =
        some (keys.countP (fun x => decide (pyIntValD x < pyIntValD key))) ∧
      List.Chain' (fun a b => decide (pyIntValD b < pyIntValD a) = false)
        (List.insertIdx
          (keys.countP (fun x => decide (pyIntValD x < pyIntValD key)))
          key keys)) ∧
    (∀ (keys : List String) (key : String),
      pyIsNumeric key = true →
      keys.all (fun s => (pyIntOf s).isSome) = true →
      List.Chain' (fun a b => decide (pyIntValD a < pyIntValD b) = false) keys →
      bisectLeftModel keys key true =
        some (keys.countP (fun x => !decide (pyIntValD x < pyIntValD key))) ∧
      List.Chain' (fun a b => decide (pyIntValD a < pyIntValD b) = false)
        (List.insertIdx
          (keys.countP (fun x => !decide (pyIntValD x < pyIntValD key)))
          key keys)) ∧
    (∀ (keys : List String) (key : String),
      pyIsNumeric key = false →
      List.Chain' (fun a b => strLtB b a = false) keys →
      bisectLeftModel keys key false =
        some (keys.countP (fun x => strLtB x key)) ∧
      List.Chain' (fun a b => strLtB b a = false)
        (List.insertIdx (keys.countP (fun x => strLtB x key)) key keys)) ∧
    (∀ (keys : List String) (key : String),
      pyIsNumeric key = false →
      List.Chain' (fun a b => strLtB a b = false) keys →
      bisectLeftModel keys key true =
        some (keys.countP (fun x => !strLtB x key)) ∧
      List.Chain' (fun a b => strLtB a b = false)
        (List.insertIdx (keys.countP (fun x => !strLtB x key)) key keys)) ∧
    (ingestAll stC1 ["3", "1", "2"]).map (fun s => s.displayed_rows) =
      some [["1"], ["2"], ["3"]] ∧
    (ingestAll { stC1 with sort_reverse := true } ["3", "1", "2"]).map
        (fun s => s.displayed_rows) =
      some [["3"], ["2"], ["1"]] := by
  refine ⟨addLogLine_sorted st line sc i hu hsearch hfilt hsort hcol hlen,
    ?_, ⟨by decide, by decide, rfl⟩, bisect_numeric_asc, bisect_numeric_desc,
    bisect_string_asc, bisect_string_desc, rfl, rfl⟩
  intro hn ha
  rw [addLogLine_sorted st line sc i hu hsearch hfilt hsort hcol hlen,
    bisect_mixed_none _ _ _ hn ha]
  rfl

/-- A sorted session displaying rows `1` and `3`, used by the C4
witness. -/
def stC4w : St := { stC1 with displayed_rows := [["1"], ["3"]] }

/-- Witness for C4: the mechanism conjunct applied to the concrete
sorted session and the arriving line `2`. -/
theorem C4_bisect_insert_witness :
    (splitD stC4w.delimiter "2").length = stC4w.columns.length ∧
    addLogLine stC4w "2" =
      (bisectLeftModel
          (stC4w.displayed_rows.map (fun r => stripMarkup (pyGetD r (0 : Int) "")))
          (stripMarkup (pyGetD (splitD stC4w.delimiter "2") (0 : Int) ""))
          stC4w.sort_reverse).map
        (fun n =>
          ({ stC4w with displayed_rows :=
              List.insertIdx n (splitD stC4w.delimiter "2") stC4w.displayed_rows },
           ([] : List String))) :=
  ⟨rfl, (C4_bisect_insert stC4w "2" "log" 0 rfl rfl rfl rfl rfl rfl).1⟩

/-! ## Claim C2: dedup/count invariants -/

/-- Read an insertion-ordered dict. -/
def dmGet (m : List (String × List String)) (k : String) : Option (List String) :=
  (m.find? (fun e => e.1 = k)).map (fun e => e.2)

/-- Reading a consed count entry. -/
theorem countGet_cons (a : String) (n : Nat) (rest : List (String × Nat))
    (k' : String) :
    countGet ((a, n) :: rest) k' = if a = k' then n else countGet rest k' := by
  by_cases h : a = k' <;> simp [countGet, List.find?, h]

/-- Reading a consed dict entry. -/
theorem dmGet_cons (a : String) (v : List String)
    (rest : List (String × List String)) (k' : String) :
    dmGet ((a, v) :: rest) k' = if a = k' then some v else dmGet rest k' := by
  by_cases h : a = k' <;> simp [dmGet, List.find?, h]

/-- Bumping a key increments exactly that key's count. -/
theorem countBump_get (k k' : String) :
    ∀ m : List (String × Nat),
      countGet (countBump m k) k' =
        countGet m k' + (if k = k' then 1 else 0)
  | [] => by
    by_cases h : k = k' <;> simp [countBump, countGet_cons, countGet, h, List.find?]
  | (a, n) :: rest => by
    simp only [countBump]
    by_cases h1 : a = k
    · subst h1
      simp only [if_pos rfl, countGet_cons]
      by_cases h2 : a = k' <;> simp [h2, countGet_cons]
    · simp only [if_neg h1, countGet_cons]
      by_cases h2 : a = k'
      · have hkk : k ≠ k' := fun h => h1 (h ▸ h2.symm ▸ rfl)
        simp [h2, hkk]
      · simp [h2, countBump_get k k' rest]

/-- Setting a key overwrites exactly that key's count. -/
theorem countSet_get (k k' : String) (v : Nat) :
    ∀ m : List (String × Nat),
      countGet (countSet m k v) k' = if k = k' then v else countGet m k'
  | [] => by
    by_cases h : k = k' <;> simp [countSet, countGet_cons, countGet, h, List.find?]
  | (a, n) :: rest => by
    simp only [countSet]
    by_cases h1 : a = k
    · subst h1
      simp only [if_pos rfl, countGet_cons]
      by_cases h2 : a = k' <;> simp [h2, countGet_cons]
    · simp only [if_neg h1, countGet_cons]
      by_cases h2 : a = k'
      · have hkk : k ≠ k' := fun h => h1 (h ▸ h2.symm ▸ rfl)
        simp [h2, hkk]
      · simp [h2, countSet_get k k' v rest]

/-- Upserting a key overwrites exactly that key's entry. -/
theorem dedupUpsert_get (k k' : String) (v : List String) :
    ∀ m : List (String × List String),
      dmGet (dedupUpsert m k v) k' = if k = k' then some v else dmGet m k'
  | [] => by
    by_cases h : k = k' <;> simp [dedupUpsert, dmGet_cons, dmGet, h, List.find?]
  | (a, w) :: rest => by
    simp only [dedupUpsert]
    by_cases h1 : a = k
    · subst h1
      simp only [if_pos rfl, dmGet_cons]
      by_cases h2 : a = k' <;> simp [h2, dmGet_cons]
    · simp only [if_neg h1, dmGet_cons]
      by_cases h2 : a = k'
      · have hkk : k ≠ k' := fun h => h1 (h ▸ h2.symm ▸ rfl)
        simp [h2, hkk]
      · simp [h2, dedupUpsert_get k k' v rest]

/-- Every entry of an upserted dict is an old entry or the new pair. -/
theorem dedupUpsert_mem (k : String) (v : List String) :
    ∀ m : List (String × List String),
      ∀ e ∈ dedupUpsert m k v, e ∈ m ∨ e = (k, v)
  | [], e, he => Or.inr (by simpa [dedupUpsert] using he)
  | (a, w) :: rest, e, he => by
    simp only [dedupUpsert] at he
    by_cases ha : a = k
    · simp only [ha, if_pos rfl] at he
      rcases List.mem_cons.1 he with rfl | hh
      · exact Or.inr rfl
      · exact Or.inl (List.mem_cons_of_mem (a, w) hh)
    · simp only [if_neg ha] at he
      rcases List.mem_cons.1 he with rfl | hh
      · exact Or.inl (List.mem_cons_self (a, w) rest)
      · rcases dedupUpsert_mem k v rest e hh with h' | h'
        · exact Or.inl (List.mem_cons_of_mem (a, w) h')
        · exact Or.inr h'

/-- Upserting preserves distinctness of the keys. -/
theorem dedupUpsert_nodup (k : String) (v : List String) :
    ∀ m : List (String × List String),
      (m.map (fun e => e.1)).Nodup →
      ((dedupUpsert m k v).map (fun e => e.1)).Nodup
  | [], _ => by simp [dedupUpsert]
  | e :: rest, h => by
    simp only [List.map_cons, List.nodup_cons] at h
    by_cases h1 : e.1 = k
    · simpa [dedupUpsert, h1] using h
    · simp only [dedupUpsert, if_neg h1, List.map_cons, List.nodup_cons]
      refine ⟨?_, dedupUpsert_nodup k v rest h.2⟩
      intro hmem
      rcases List.mem_map.1 hmem with ⟨e', he', heq⟩
      rcases dedupUpsert_mem k v rest e' he' with h' | h'
      · exact h.1 (List.mem_map.2 ⟨e', h', heq⟩)
      · exact h1 (by rw [← heq, h'])

/-- Upserting a coherent pair preserves key/value coherence. -/
theorem dedupUpsert_kv (K : List String → String) (k : String) (v : List String)
    (hkv : K v = k) (m : List (String × List String))
    (h : ∀ e ∈ m, K e.2 = e.1) :
    ∀ e ∈ dedupUpsert m k v, K e.2 = e.1 := by
  intro e he
  rcases dedupUpsert_mem k v m e he with h' | h'
  · exact h e h'
  · rw [h']
    exact hkv

/-- The loop body of the dedup pass, abstracted over the key function. -/
def dedupStep (K : List String → String)
    (acc : List (String × List String) × List (String × Nat))
    (cells : List String) :
    List (String × List String) × List (String × Nat) :=
  (dedupUpsert acc.1 (K cells) cells, countBump acc.2 (K cells))

/-- `dedupFold` is a left fold of `dedupStep` from the empty maps. -/
theorem dedupFold_eq_foldl (cols uniq : List String) (rows : List (List String)) :
    dedupFold cols uniq rows =
      rows.foldl (dedupStep (rebuildKey cols uniq)) ([], []) := rfl

/-- After the dedup pass the count of a key is its previous count plus
the number of processed rows carrying that key. -/
theorem dedupStep_foldl_count (K : List String → String) (k : String) :
    ∀ (rows : List (List String))
      (acc : List (String × List String) × List (String × Nat)),
      countGet (rows.foldl (dedupStep K) acc).2 k =
        countGet acc.2 k + rows.countP (fun c => K c = k)
  | [], acc => by simp
  | c :: rows, acc => by
    rw [List.foldl_cons, dedupStep_foldl_count K k rows]
    simp only [dedupStep, countBump_get, List.countP_cons]
    by_cases h : K c = k <;> simp [h] <;> omega

/-- After the dedup pass a key maps to the last processed row carrying
it (falling back to the previous binding). -/
theorem dedupStep_foldl_dm (K : List String → String) (k : String) :
    ∀ (rows : List (List String))
      (acc : List (String × List String) × List (String × Nat)),
      dmGet (rows.foldl (dedupStep K) acc).1 k =
        match rows.reverse.find? (fun c => K c = k) with
        | some c => some c
        | none => dmGet acc.1 k
  | [], acc => by simp
  | c :: rows, acc => by
    rw [List.foldl_cons, dedupStep_foldl_dm K k rows]
    have happ : (c :: rows).reverse.find? (fun c' => K c' = k) =
        match rows.reverse.find? (fun c' => K c' = k) with
        | some d => some d
        | none => [c].find? (fun c' => K c' = k) := by
      rw [List.reverse_cons]
      induction rows.reverse with
      | nil => simp
      | cons a l ih =>
        by_cases h : K a = k <;> simp [List.find?_cons, h, ih]
    rw [happ]
    cases hfind : rows.reverse.find? (fun c' => K c' = k) with
    | some d => rfl
    | none =>
      simp only [dedupStep, dedupUpsert_get]
      by_cases h : K c = k <;> simp [List.find?, h]

/-- The dedup pass preserves distinctness of the stored keys. -/
theorem dedupStep_foldl_nodup (K : List String → String) :
    ∀ (rows : List (List String))
      (acc : List (String × List String) × List (String × Nat)),
      (acc.1.map (fun e => e.1)).Nodup →
      ((rows.foldl (dedupStep K) acc).1.map (fun e => e.1)).Nodup
  | [], _, h => h
  | c :: rows, acc, h =>
    dedupStep_foldl_nodup K rows _ (dedupUpsert_nodup (K c) c acc.1 h)

/-- The dedup pass preserves key/value coherence: every stored entry's
key is the key of its cells. -/
theorem dedupStep_foldl_kv (K : List String → String) :
    ∀ (rows : List (List String))
      (acc : List (String × List String) × List (String × Nat)),
      (∀ e ∈ acc.1, K e.2 = e.1) →
      ∀ e ∈ (rows.foldl (dedupStep K) acc).1, K e.2 = e.1
  | [], _, h => h
  | c :: rows, acc, h =>
    dedupStep_foldl_kv K rows _ (dedupUpsert_kv K (K c) c rfl acc.1 h)

/-- The count built by `_update_table`'s dedup pass: exactly the number
of kept rows sharing the key. -/
theorem dedupFold_count (cols uniq : List String) (rows : List (List String))
    (k : String) :
    countGet (dedupFold cols uniq rows).2 k =
      rows.countP (fun c => rebuildKey cols uniq c = k) := by
  rw [dedupFold_eq_foldl, dedupStep_foldl_count]
  simp [countGet]

/-- The dict built by `_update_table`'s dedup pass: a key maps to the
last kept row carrying it. -/
theorem dedupFold_dm (cols uniq : List String) (rows : List (List String))
    (k : String) :
    dmGet (dedupFold cols uniq rows).1 k =
      rows.reverse.find? (fun c => rebuildKey cols uniq c = k) := by
  rw [dedupFold_eq_foldl, dedupStep_foldl_dm]
  cases h : rows.reverse.find? (fun c => rebuildKey cols uniq c = k) <;>
    simp [dmGet]

/-- The dict built by the dedup pass has pairwise distinct keys. -/
theorem dedupFold_nodup (cols uniq : List String) (rows : List (List String)) :
    ((dedupFold cols uniq rows).1.map (fun e => e.1)).Nodup := by
  rw [dedupFold_eq_foldl]
  exact dedupStep_foldl_nodup _ rows ([], []) (by simp)

/-- Every entry of the dedup dict is keyed by its own cells' key. -/
theorem dedupFold_kv (cols uniq : List String) (rows : List (List String)) :
    ∀ e ∈ (dedupFold cols uniq rows).1, rebuildKey cols uniq e.2 = e.1 := by
  rw [dedupFold_eq_foldl]
  exact dedupStep_foldl_kv _ rows ([], []) (by simp)

/-- In a map with distinct keys, looking up a stored entry's key finds
that entry. -/
theorem find?_key_of_mem_nodup :
    ∀ (m : List (String × List String)) (e : String × List String),
      e ∈ m → (m.map (fun x => x.1)).Nodup →
      m.find? (fun x => x.1 = e.1) = some e
  | f :: rest, e, he, h => by
    rcases List.mem_cons.1 he with rfl | hh
    · simp [List.find?]
    · have hnd : f.1 ∉ rest.map (fun x => x.1) ∧
          (rest.map (fun x => x.1)).Nodup := by
        rw [List.map_cons, List.nodup_cons] at h
        exact h
      have h1 : ¬ (fun x : String × List String => decide (x.1 = e.1)) f = true := by
        simp only [decide_eq_true_eq]
        exact fun hq => hnd.1 (List.mem_map.2 ⟨e, hh, hq.symm⟩)
      rw [List.find?_cons_of_neg rest h1]
      exact find?_key_of_mem_nodup rest e hh hnd.2

/-- `dmGet` finds a stored entry when the keys are distinct. -/
theorem dmGet_of_mem_nodup (m : List (String × List String))
    (e : String × List String) (he : e ∈ m)
    (h : (m.map (fun x => x.1)).Nodup) : dmGet m e.1 = some e.2 := by
  rw [dmGet, find?_key_of_mem_nodup m e he h]
  rfl

/-- A Python read at a nonnegative index is a plain list read. -/
theorem pyGetD_natCast (l : List String) (i : Nat) (d : String) :
    pyGetD l (i : Int) d = l.getD i d := by
  unfold pyGetD
  have h0 : ¬ (i : Int) < 0 := by exact_mod_cast Int.not_lt.2 (Int.natCast_nonneg i)
  rw [if_neg h0]
  by_cases h : i < l.length
  · rw [if_pos ⟨Int.natCast_nonneg i, by exact_mod_cast h⟩]
    simp
  · rw [if_neg (fun hc => h (by exact_mod_cast hc.2))]
    exact (List.getD_eq_default l d (Nat.le_of_not_lt h)).symm

/-- Shifting a Python read past a consed head. -/
theorem pyGetD_cons_succ (c : String) (l : List String) (i : Nat) (d : String) :
    pyGetD (c :: l) ((i : Int) + 1) d = pyGetD l (i : Int) d := by
  have h1 : ((i : Int) + 1) = ((i + 1 : Nat) : Int) := by push_cast; ring
  rw [h1, pyGetD_natCast, pyGetD_natCast]
  simp [List.getD]

/-- The synthetic count label carries no sort/unique indicator. -/
theorem stripCount : stripColumnIndicators "count" = "count" := by decide

/-- Resolving a name that is not the head label skips the head and
shifts the index. -/
theorem getColIdxByName_cons_ne (c : String) (cols : List String) (n : String)
    (h : ¬ stripColumnIndicators c = n) :
    getColIdxByName (c :: cols) n = (getColIdxByName cols n).map (fun i => i + 1) := by
  unfold getColIdxByName
  rw [List.findIdx?_cons, if_neg (by simpa using h), List.findIdx?_succ]

/-- With a leading count column and key names other than `count`, the
composite key of a displayed row (count cell first) is the rebuild key
of its data cells. -/
theorem rowKey_cons (base uniq : List String)
    (hn : ∀ n ∈ uniq, ¬ n = "count") (c : String) (cells : List String) :
    rowCompositeKey ("count" :: base) uniq (c :: cells) =
      rebuildKey ("count" :: base) uniq cells := by
  unfold rowCompositeKey rebuildKey
  congr 1
  apply List.filterMap_congr
  intro n hn'
  have hne : ¬ stripColumnIndicators "count" = n := by
    rw [stripCount]
    exact fun h => hn n hn' h.symm
  rw [getColIdxByName_cons_ne _ _ _ hne]
  cases h : getColIdxByName base n with
  | none => rfl
  | some i =>
    show some (stripMarkup (pyGetD (c :: cells) (((i + 1 : Nat) : Int)) "")) =
      some (stripMarkup (pyGetD cells (((i + 1 : Nat) : Int) - 1) ""))
    have h2 : ((i + 1 : Nat) : Int) - 1 = (i : Int) := by push_cast; ring
    have h1 : ((i + 1 : Nat) : Int) = (i : Int) + 1 := by push_cast; ring
    rw [h2, h1, pyGetD_cons_succ]

/-- Green-highlighting every data cell (as `_add_log_line` does to a
replaced row) does not change the rebuild key, provided stripping a
highlighted stripped cell returns the stripped cell. -/
theorem rebuildKey_map_green (base uniq : List String) (cells : List String)
    (hn : ∀ n ∈ uniq, ¬ n = "count")
    (hgreen : ∀ c ∈ cells, stripMarkup (wrapGreen (stripMarkup c)) = stripMarkup c) :
    rebuildKey ("count" :: base) uniq
        (cells.map (fun c => wrapGreen (stripMarkup c))) =
      rebuildKey ("count" :: base) uniq cells := by
  unfold rebuildKey
  congr 1
  apply List.filterMap_congr
  intro n hn'
  have hne : ¬ stripColumnIndicators "count" = n := by
    rw [stripCount]
    exact fun h => hn n hn' h.symm
  rw [getColIdxByName_cons_ne _ _ _ hne]
  cases h : getColIdxByName base n with
  | none => rfl
  | some i =>
    show some (stripMarkup (pyGetD (cells.map (fun c => wrapGreen (stripMarkup c)))
        (((i + 1 : Nat) : Int) - 1) "")) =
      some (stripMarkup (pyGetD cells (((i + 1 : Nat) : Int) - 1) ""))
    have h2 : ((i + 1 : Nat) : Int) - 1 = (i : Int) := by push_cast; ring
    rw [h2, pyGetD_natCast, pyGetD_natCast]
    by_cases hi : i < cells.length
    · rw [List.getD_eq_getElem _ _ (by simpa using hi), List.getD_eq_getElem _ _ hi]
      rw [List.getElem_map]
      exact congrArg some (hgreen cells[i] (List.getElem_mem hi))
    · rw [List.getD_eq_default _ _ (by simpa using Nat.le_of_not_lt hi),
        List.getD_eq_default _ _ (Nat.le_of_not_lt hi)]

/-- With dedup on, a leading count column and no active search,
`_update_table` displays (up to the configured sort's reordering) one
row per dedup-dict entry - the stored cells prefixed by the count cell -
and stores the rebuilt counts. -/
theorem updateTable_dedup (st : St) (base : List String)
    (hcols : st.columns = "count" :: base)
    (hu : ¬ st.unique_column_names = [])
    (hsearch : st.search_term = none) :
    (updateTable st).1.displayed_rows.Perm
      ((dedupFold st.columns st.unique_column_names
          (filterRows (splitD st.delimiter) base.length st.current_filter
            st.filter_column_name st.columns true st.raw_rows).1).1.map
        (fun e => toString (countGet (dedupFold st.columns st.unique_column_names
            (filterRows (splitD st.delimiter) base.length st.current_filter
              st.filter_column_name st.columns true st.raw_rows).1).2 e.1) :: e.2)) ∧
    (updateTable st).1.columns = st.columns ∧
    (updateTable st).1.count_by_column_key =
      (dedupFold st.columns st.unique_column_names
        (filterRows (splitD st.delimiter) base.length st.current_filter
          st.filter_column_name st.columns true st.raw_rows).1).2 := by
  have hue : st.unique_column_names.isEmpty = false := by
    cases hl : st.unique_column_names with
    | nil => exact absurd hl hu
    | cons a l => rfl
  have hcnt : (st.columns.any (fun c => stripColumnIndicators c = "count")) = true := by
    rw [hcols]
    simp [stripCount]
  have hexp : st.columns.length - 1 = base.length := by rw [hcols]; rfl
  simp only [updateTable, hue, hcnt, hsearch, Bool.not_false, if_true, if_false,
    Bool.false_eq_true, hexp]
  refine ⟨?_, by first | rfl | trivial, by first | rfl | trivial⟩
  cases hs : st.sort_column with
  | none =>
    dsimp only
    exact List.Perm.refl _
  | some sc =>
    dsimp only
    cases hidx : getColIdxByName st.columns sc with
    | none =>
      dsimp only
      exact List.Perm.refl _
    | some i =>
      dsimp only
      exact stableSort_perm _ _

/-- Mapping a position-sensitive function over a suffix enumeration
starting at a positive index never takes the index-0 branch. -/
theorem enumFrom_map_pos (g : String → String) (a : String) :
    ∀ (l : List String) (n : Nat),
      (l.enumFrom (n + 1)).map
          (fun e => if e.1 = 0 then a else g e.2) = l.map g
  | [], _ => rfl
  | c :: cs, n => by
    simp [List.enumFrom, enumFrom_map_pos g a cs (n + 1)]

/-- The replacement row built by `_add_log_line` on a key collision: the
count cell followed by the green-highlighted stripped cells. -/
theorem enum_green (n : Nat) (x : String) (cells : List String) :
    (x :: cells).enum.map (fun e =>
        if e.1 = 0 then wrapGreen (toString n) else wrapGreen (stripMarkup e.2)) =
      wrapGreen (toString n) :: cells.map (fun c => wrapGreen (stripMarkup c)) := by
  have h : (x :: cells).enum = (0, x) :: cells.enumFrom 1 := by simp [List.enum]
  rw [h, List.map_cons]
  exact congrArg _ (enumFrom_map_pos (fun c => wrapGreen (stripMarkup c))
    (wrapGreen (toString n)) cells 0)

/-- A successful index search returns an index holding a matching
element. -/
theorem findIdx?_some_get (p : List String → Bool) :
    ∀ (l : List (List String)) (i : Nat), l.findIdx? p = some i →
      ∃ a, l.get? i = some a ∧ p a
  | [], i, h => by simp [List.findIdx?] at h
  | b :: bs, i, h => by
    rw [List.findIdx?_cons] at h
    by_cases hb : p b
    · simp [hb] at h
      exact ⟨b, by simp [← h], hb⟩
    · simp only [hb, if_false] at h
      rw [List.findIdx?_succ] at h
      cases hi : bs.findIdx? p with
      | none => simp [hi] at h
      | some j =>
        rw [hi] at h
        simp at h
        obtain ⟨a, ha, hpa⟩ := findIdx?_some_get p bs j hi
        exact ⟨a, by rw [← h]; simpa using ha, hpa⟩

/-- With dedup on, no sort, no filter and no search, `_add_log_line` on
a well-formed line either appends the `1`-prefixed cells as a fresh row
(key unseen, count set to 1), or replaces the one matching row: the new
row (count cell, then green-highlighted stripped cells) is appended and
the old row removed, with the key's count bumped. -/
theorem addLogLine_dedup (st : St) (line : String)
    (hu : ¬ st.unique_column_names = [])
    (hsort : st.sort_column = none)
    (hflt : st.current_filter = none)
    (hsearch : st.search_term = none)
    (hlen : ("1" :: splitD st.delimiter line).length = st.columns.length) :
    (st.displayed_rows.findIdx? (fun row =>
        rowCompositeKey st.columns st.unique_column_names row =
          rowCompositeKey st.columns st.unique_column_names
            ("1" :: splitD st.delimiter line)) = none →
      addLogLine st line = some ({ st with
        displayed_rows := st.displayed_rows ++ ["1" :: splitD st.delimiter line],
        search_matches := st.search_matches ++ [],
        count_by_column_key := countSet st.count_by_column_key
          (rowCompositeKey st.columns st.unique_column_names
            ("1" :: splitD st.delimiter line)) 1 }, [])) ∧
    (∀ (j : Nat) (oldRow : List String),
      st.displayed_rows.findIdx? (fun row =>
        rowCompositeKey st.columns st.unique_column_names row =
          rowCompositeKey st.columns st.unique_column_names
            ("1" :: splitD st.delimiter line)) = some j →
      st.displayed_rows.get? j = some oldRow →
      addLogLine st line = some ({ st with
        displayed_rows := st.displayed_rows.erase oldRow ++
          [wrapGreen (toString (countGet st.count_by_column_key
              (rowCompositeKey st.columns st.unique_column_names
                ("1" :: splitD st.delimiter line)) + 1)) ::
            (splitD st.delimiter line).map (fun c => wrapGreen (stripMarkup c))],
        search_matches := st.search_matches ++ [],
        count_by_column_key := countBump st.count_by_column_key
          (rowCompositeKey st.columns st.unique_column_names
            ("1" :: splitD st.delimiter line)) }, [])) := by
  have hue : st.unique_column_names.isEmpty = false := by
    cases hl : st.unique_column_names with
    | nil => exact absurd hl hu
    | cons a l => rfl
  constructor
  · intro hnone
    simp only [addLogLine, hue, Bool.false_eq_true, if_false, hflt, hsort,
      hsearch, hlen, ne_eq, not_true_eq_false, Bool.not_true, hnone]
    simp [List.insertIdx_length_self]
  · intro j oldRow hj hold
    simp only [addLogLine, hue, Bool.false_eq_true, if_false, hflt, hsort,
      hsearch, hlen, ne_eq, not_true_eq_false, Bool.not_true, hj, hold]
    rw [countBump_get]
    simp only [if_pos rfl, enum_green, List.insertIdx_length_self,
      List.erase_append_left _ (List.get?_mem hold)]
    simp

/-- Appending a row with an unseen key keeps the displayed keys
distinct. -/
theorem nodup_keys_append_fresh (key : List String → String)
    (displayed : List (List String)) (newRow : List String)
    (hnd : (displayed.map key).Nodup)
    (hnone : ∀ row ∈ displayed, ¬ key row = key newRow) :
    ((displayed ++ [newRow]).map key).Nodup := by
  rw [List.map_append]
  rw [List.nodup_append]
  refine ⟨hnd, by simp, ?_⟩
  intro a ha hb
  rcases List.mem_map.1 ha with ⟨row, hrow, hkey⟩
  rcases List.mem_singleton.1 (by simpa using hb) with rfl
  exact hnone row hrow hkey

/-- Removing the first occurrence of a stored row is a permutation
rearrangement (stated for the row lists the view holds). -/
theorem perm_cons_erase_rows (a : List String) :
    ∀ l : List (List String), a ∈ l → l.Perm (a :: l.erase a)
  | b :: bs, h => by
    by_cases hb : b = a
    · subst hb
      rw [List.erase_cons_head]
    · rw [List.erase_cons_tail]
      · have h' : a ∈ bs := by
          rcases List.mem_cons.1 h with h | h
          · exact absurd h.symm hb
          · exact h
        exact ((perm_cons_erase_rows a bs h').cons b).trans (List.Perm.swap a b _)
      · simpa using hb

/-- Replacing the one row carrying a key (erase the old row, append the
new one with the same key) keeps the displayed keys distinct. -/
theorem nodup_keys_replace (key : List String → String)
    (displayed : List (List String)) (oldRow newRow : List String)
    (hmem : oldRow ∈ displayed)
    (hnd : (displayed.map key).Nodup)
    (hkey : key newRow = key oldRow) :
    ((displayed.erase oldRow ++ [newRow]).map key).Nodup := by
  have hperm : displayed.Perm (oldRow :: displayed.erase oldRow) :=
    perm_cons_erase_rows oldRow displayed hmem
  have hnd2 : ((oldRow :: displayed.erase oldRow).map key).Nodup :=
    ((hperm.map key).nodup_iff).1 hnd
  rw [List.map_cons, List.nodup_cons] at hnd2
  rw [List.map_append, List.nodup_append]
  refine ⟨hnd2.2, by simp, ?_⟩
  intro a ha hb
  rcases List.mem_singleton.1 (by simpa using hb) with rfl
  rw [hkey] at ha
  exact hnd2.1 ha

/-- The spec's dedup example, keyed on `k`, mid-ingestion: the first
line has been integrated and the next two are already in the raw
store awaiting the rebuild. -/
def stC2 : St :=
  { raw_rows := ["1,a", "1,b", "2,c"], raw_header := "k,v",
    displayed_rows := [["1", "1", "a"]],
    current_filter := none, filter_column_name := none,
    search_term := none, sort_column := none, sort_reverse := false,
    search_matches := [], current_match_index := -1,
    unique_column_names := ["k"],
    count_by_column_key := [("1", 1)],
    columns := ["count", "k", "v"], cursor := (0, 0), delimiter := .str "," }

/-- C2: with a non-empty unique-key set (leading count column, key names
other than `count`, no active search) the rebuilt view holds at most one
display row per composite key; each row is the count cell followed by
the cells of the most recently kept line with that key, and the count is
the number of post-filter kept lines sharing the key.  The incremental
append path preserves the invariant one line at a time: an unseen key
appends a fresh row with count 1, a seen key replaces the single
matching row by the green-highlighted newest cells with the count
bumped, keeping the keys distinct.  The spec's `k=1,v=a / k=1,v=b /
k=2,v=c` example rebuilds to exactly `2,1,b` and `1,2,c`. -/
theorem C2_dedup_invariant (base : List String) (st : St)
    (hcols : st.columns = "count" :: base)
    (hu : ¬ st.unique_column_names = [])
    (hn : ∀ n ∈ st.unique_column_names, ¬ n = "count")
    (hsearch : st.search_term = none) :
    (((updateTable st).1.displayed_rows.map
        (fun row => rowCompositeKey st.columns st.unique_column_names row)).Nodup ∧
      ∀ row ∈ (updateTable st).1.displayed_rows,
        ∃ cells : List String,
          row = toString ((filterRows (splitD st.delimiter) base.length
              st.current_filter st.filter_column_name st.columns true
              st.raw_rows).1.countP (fun c =>
                rebuildKey st.columns st.unique_column_names c =
                  rebuildKey st.columns st.unique_column_names cells)) :: cells ∧
          (filterRows (splitD st.delimiter) base.length st.current_filter
              st.filter_column_name st.columns true st.raw_rows).1.reverse.find?
            (fun c => rebuildKey st.columns st.unique_column_names c =
              rebuildKey st.columns st.unique_column_names cells) = some cells ∧
          rowCompositeKey st.columns st.unique_column_names row =
            rebuildKey st.columns st.unique_column_names cells) ∧
    (∀ line : String,
      st.sort_column = none → st.current_filter = none →
      ("1" :: splitD st.delimiter line).length = st.columns.length →
      (∀ c ∈ splitD st.delimiter line,
        stripMarkup (wrapGreen (stripMarkup c)) = stripMarkup c) →
      (st.displayed_rows.map
        (fun row => rowCompositeKey st.columns st.unique_column_names row)).Nodup →
      ((st.displayed_rows.findIdx? (fun row =>
          rowCompositeKey st.columns st.unique_column_names row =
            rowCompositeKey st.columns st.unique_column_names
              ("1" :: splitD st.delimiter line)) = none →
        addLogLine st line = some ({ st with
          displayed_rows := st.displayed_rows ++ ["1" :: splitD st.delimiter line],
          search_matches := st.search_matches ++ [],
          count_by_column_key := countSet st.count_by_column_key
            (rowCompositeKey st.columns st.unique_column_names
              ("1" :: splitD st.delimiter line)) 1 }, []) ∧
        ((st.displayed_rows ++ ["1" :: splitD st.delimiter line]).map
          (fun row => rowCompositeKey st.columns st.unique_column_names row)).Nodup ∧
        countGet (countSet st.count_by_column_key
            (rowCompositeKey st.columns st.unique_column_names
              ("1" :: splitD st.delimiter line)) 1)
          (rowCompositeKey st.columns st.unique_column_names
            ("1" :: splitD st.delimiter line)) = 1) ∧
      (∀ (j : Nat) (oldRow : List String),
        st.displayed_rows.findIdx? (fun row =>
          rowCompositeKey st.columns st.unique_column_names row =
            rowCompositeKey st.columns st.unique_column_names
              ("1" :: splitD st.delimiter line)) = some j →
        st.displayed_rows.get? j = some oldRow →
        addLogLine st line = some ({ st with
          displayed_rows := st.displayed_rows.erase oldRow ++
            [wrapGreen (toString (countGet st.count_by_column_key
                (rowCompositeKey st.columns st.unique_column_names
                  ("1" :: splitD st.delimiter line)) + 1)) ::
              (splitD st.delimiter line).map (fun c => wrapGreen (stripMarkup c))],
          search_matches := st.search_matches ++ [],
          count_by_column_key := countBump st.count_by_column_key
            (rowCompositeKey st.columns st.unique_column_names
              ("1" :: splitD st.delimiter line)) }, []) ∧
        rowCompositeKey st.columns st.unique_column_names
          (wrapGreen (toString (countGet st.count_by_column_key
              (rowCompositeKey st.columns st.unique_column_names
                ("1" :: splitD st.delimiter line)) + 1)) ::
            (splitD st.delimiter line).map (fun c => wrapGreen (stripMarkup c))) =
          rowCompositeKey st.columns st.unique_column_names
            ("1" :: splitD st.delimiter line) ∧
        ((st.displayed_rows.erase oldRow ++
          [wrapGreen (toString (countGet st.count_by_column_key
              (rowCompositeKey st.columns st.unique_column_names
                ("1" :: splitD st.delimiter line)) + 1)) ::
            (splitD st.delimiter line).map (fun c => wrapGreen (stripMarkup c))]).map
          (fun row => rowCompositeKey st.columns st.unique_column_names row)).Nodup))) ∧
    (updateTable stC2).1.displayed_rows = [["2", "1", "b"], ["1", "2", "c"]] := by
  obtain ⟨hperm, hcolsEq, hcntEq⟩ := updateTable_dedup st base hcols hu hsearch
  have hKf : ∀ e ∈ (dedupFold st.columns st.unique_column_names
      (filterRows (splitD st.delimiter) base.length st.current_filter
        st.filter_column_name st.columns true st.raw_rows).1).1,
      rowCompositeKey st.columns st.unique_column_names
        (toString (countGet (dedupFold st.columns st.unique_column_names
          (filterRows (splitD st.delimiter) base.length st.current_filter
            st.filter_column_name st.columns true st.raw_rows).1).2 e.1) :: e.2) = e.1 := by
    intro e he
    rw [hcols, rowKey_cons base st.unique_column_names hn, ← hcols]
    exact dedupFold_kv st.columns st.unique_column_names _ e he
  refine ⟨⟨?_, ?_⟩, ?_, by decide⟩
  · have hkeys : ((dedupFold st.columns st.unique_column_names
        (filterRows (splitD st.delimiter) base.length st.current_filter
          st.filter_column_name st.columns true st.raw_rows).1).1.map
        (fun e => toString (countGet (dedupFold st.columns st.unique_column_names
          (filterRows (splitD st.delimiter) base.length st.current_filter
            st.filter_column_name st.columns true st.raw_rows).1).2 e.1) :: e.2)).map
        (fun row => rowCompositeKey st.columns st.unique_column_names row) =
        (dedupFold st.columns st.unique_column_names
          (filterRows (splitD st.delimiter) base.length st.current_filter
            st.filter_column_name st.columns true st.raw_rows).1).1.map
          (fun e => e.1) := by
      rw [List.map_map]
      exact List.map_eq_map_iff.mpr (fun e he => hKf e he)
    refine ((hperm.map _).nodup_iff).2 ?_
    rw [hkeys]
    exact dedupFold_nodup st.columns st.unique_column_names _
  · intro row hrow
    have hrow' := hperm.mem_iff.1 hrow
    rcases List.mem_map.1 hrow' with ⟨e, he, hfe⟩
    have hkv : rebuildKey st.columns st.unique_column_names e.2 = e.1 :=
      dedupFold_kv st.columns st.unique_column_names _ e he
    refine ⟨e.2, ?_, ?_, ?_⟩
    · rw [← hfe, dedupFold_count, ← hkv]
    · have hdmv : dmGet (dedupFold st.columns st.unique_column_names
          (filterRows (splitD st.delimiter) base.length st.current_filter
            st.filter_column_name st.columns true st.raw_rows).1).1 e.1 = some e.2 :=
        dmGet_of_mem_nodup _ e he
          (dedupFold_nodup st.columns st.unique_column_names _)
      rw [dedupFold_dm, ← hkv] at hdmv
      exact hdmv
    · rw [← hfe, hKf e he]
      exact hkv.symm
  · intro line hsort hflt hlen hgreen hnd
    obtain ⟨hfresh, hcoll⟩ := addLogLine_dedup st line hu hsort hflt hsearch hlen
    constructor
    · intro hnone
      refine ⟨hfresh hnone, ?_, ?_⟩
      · refine nodup_keys_append_fresh _ _ _ hnd ?_
        intro row hrow
        have hp := List.findIdx?_eq_none_iff.1 hnone row hrow
        simpa using hp
      · rw [countSet_get]
        simp
    · intro j oldRow hj hold
      have hkeyold : rowCompositeKey st.columns st.unique_column_names oldRow =
          rowCompositeKey st.columns st.unique_column_names
            ("1" :: splitD st.delimiter line) := by
        obtain ⟨a, ha, hpa⟩ := findIdx?_some_get _ _ _ hj
        rw [hold] at ha
        cases ha
        simpa using hpa
      have hkeynew : rowCompositeKey st.columns st.unique_column_names
          (wrapGreen (toString (countGet st.count_by_column_key
              (rowCompositeKey st.columns st.unique_column_names
                ("1" :: splitD st.delimiter line)) + 1)) ::
            (splitD st.delimiter line).map (fun c => wrapGreen (stripMarkup c))) =
          rowCompositeKey st.columns st.unique_column_names
            ("1" :: splitD st.delimiter line) := by
        rw [hcols, rowKey_cons base st.unique_column_names hn,
          rebuildKey_map_green base st.unique_column_names _ hn hgreen,
          ← rowKey_cons base st.unique_column_names hn "1" (splitD st.delimiter line)]
      refine ⟨hcoll j oldRow hj hold, hkeynew, ?_⟩
      refine nodup_keys_replace _ st.displayed_rows oldRow _
        (List.get?_mem hold) hnd ?_
      rw [hkeynew, hkeyold]

/-- Witness for C2 on the spec's example: the rebuilt view has distinct
keys and equals exactly the two expected rows, and appending the
colliding line `1,b` to the one-row view replaces the row (count 2,
green-highlighted cells) and bumps the stored count. -/
theorem C2_dedup_invariant_witness :
    ((updateTable stC2).1.displayed_rows.map
        (fun row => rowCompositeKey stC2.columns stC2.unique_column_names row)).Nodup ∧
    (updateTable stC2).1.displayed_rows = [["2", "1", "b"], ["1", "2", "c"]] ∧
    (addLogLine stC2 "1,b").map (fun r => r.1.displayed_rows) =
      some [["[#00ff00]2[/#00ff00]", "[#00ff00]1[/#00ff00]", "[#00ff00]b[/#00ff00]"]] ∧
    (addLogLine stC2 "1,b").map (fun r => r.1.count_by_column_key) =
      some [("1", 2)] := by
  have h := C2_dedup_invariant ["k", "v"] stC2 rfl (by decide) (by decide) rfl
  have hb := h.2.1 "1,b" rfl rfl (by decide) (by decide) (by decide)
  have hc := hb.2 0 ["1", "1", "a"] (by decide) rfl
  refine ⟨h.1.1, h.2.2, ?_, ?_⟩
  · rw [hc.1]
    decide
  · rw [hc.1]
    decide

/-! ## Claim C5 -/

/-- A two-column comma-delimited session with the filter `err` (an
`IGNORECASE`-compiled literal) scoped to column `c1`, used by the C5
example. -/
def stC5 : St :=
  { emptySt with
    columns := ["c1", "c2"]
    delimiter := .str ","
    raw_rows := ["err,ok", "ok,err"]
    current_filter := some (litPatternCI "err")
    filter_column_name := some "c1" }

/-- A dedup session (unique key `k`, leading count column) with the
any-column filter `1`, used to exhibit the count-cell scan of the
append path. -/
def stC5d : St :=
  { emptySt with
    columns := ["count", "k"]
    delimiter := .str ","
    unique_column_names := ["k"]
    current_filter := some (litPatternCI "1")
    filter_column_name := none }

/-- With dedup on, the any-column filter gate of `_add_log_line` scans
the count-prefixed cells - the synthetic `"1"` count cell included - of
a fresh-keyed, well-formed line: the line is appended when any of those
cells matches and silently dropped otherwise. -/
theorem addLogLine_dedup_filter_any (f : CPattern) (st : St) (line : String)
    (hu : ¬ st.unique_column_names = [])
    (hsort : st.sort_column = none)
    (hf : st.current_filter = some f)
    (hcol : st.filter_column_name = none)
    (hsearch : st.search_term = none)
    (hlen : ("1" :: splitD st.delimiter line).length = st.columns.length)
    (hfresh : st.displayed_rows.findIdx? (fun row =>
        rowCompositeKey st.columns st.unique_column_names row =
          rowCompositeKey st.columns st.unique_column_names
            ("1" :: splitD st.delimiter line)) = none) :
    addLogLine st line =
      if ("1" :: splitD st.delimiter line).any
          (fun c => f.search (stripMarkup c)) then
        some ({ st with
          displayed_rows := st.displayed_rows ++ ["1" :: splitD st.delimiter line],
          search_matches := st.search_matches ++ [],
          count_by_column_key := countSet st.count_by_column_key
            (rowCompositeKey st.columns st.unique_column_names
              ("1" :: splitD st.delimiter line)) 1 }, [])
      else some (st, []) := by
  have hue : st.unique_column_names.isEmpty = false := by
    cases hl : st.unique_column_names with
    | nil => exact absurd hl hu
    | cons a l => rfl
  by_cases hm : ("1" :: splitD st.delimiter line).any
      (fun c => f.search (stripMarkup c)) = true
  · rw [if_pos hm]
    simp only [addLogLine, hue, Bool.false_eq_true, if_false, hf, hcol, hsort,
      hsearch, hlen, ne_eq, not_true_eq_false, Bool.not_true, hfresh, hm]
    simp [List.insertIdx_length_self]
  · rw [if_neg hm]
    have hm' : ("1" :: splitD st.delimiter line).any
        (fun c => f.search (stripMarkup c)) = false := by
      simpa using hm
    simp only [addLogLine, hue, Bool.false_eq_true, if_false, hf, hcol, hm',
      ne_eq, not_true_eq_false, Bool.not_true, hlen]
    simp

/-- With dedup on, the column-scoped filter gate of `_add_log_line`
tests the resolved column's cell under the count-aware index (so, for a
resolvable data column, the configured field): the fresh-keyed,
well-formed line is appended when it matches and silently dropped
otherwise. -/
theorem addLogLine_dedup_filter_col (f : CPattern) (st : St) (line : String)
    (cn : String) (i : Nat)
    (hu : ¬ st.unique_column_names = [])
    (hsort : st.sort_column = none)
    (hf : st.current_filter = some f)
    (hcn : st.filter_column_name = some cn)
    (hidx : getColIdxByName st.columns cn = some i)
    (hsearch : st.search_term = none)
    (hlen : ("1" :: splitD st.delimiter line).length = st.columns.length)
    (hfresh : st.displayed_rows.findIdx? (fun row =>
        rowCompositeKey st.columns st.unique_column_names row =
          rowCompositeKey st.columns st.unique_column_names
            ("1" :: splitD st.delimiter line)) = none) :
    addLogLine st line =
      if f.search (stripMarkup
          (pyGetD ("1" :: splitD st.delimiter line) (i : Int) "")) then
        some ({ st with
          displayed_rows := st.displayed_rows ++ ["1" :: splitD st.delimiter line],
          search_matches := st.search_matches ++ [],
          count_by_column_key := countSet st.count_by_column_key
            (rowCompositeKey st.columns st.unique_column_names
              ("1" :: splitD st.delimiter line)) 1 }, [])
      else some (st, []) := by
  have hue : st.unique_column_names.isEmpty = false := by
    cases hl : st.unique_column_names with
    | nil => exact absurd hl hu
    | cons a l => rfl
  by_cases hm : f.search (stripMarkup
      (pyGetD ("1" :: splitD st.delimiter line) (i : Int) "")) = true
  · rw [if_pos hm]
    simp only [addLogLine, hue, Bool.false_eq_true, if_false, hf, hcn, hidx,
      hsort, hsearch, hlen, ne_eq, not_true_eq_false, Bool.not_true, hfresh, hm]
    simp [List.insertIdx_length_self]
  · rw [if_neg hm]
    have hm' : f.search (stripMarkup
        (pyGetD ("1" :: splitD st.delimiter line) (i : Int) "")) = false := by
      simpa using hm
    simp only [addLogLine, hue, Bool.false_eq_true, if_false, hf, hcn, hidx,
      hm', ne_eq, not_true_eq_false, Bool.not_true, hlen]
    simp

/-- Counterexample to claim C5 as stated: with dedup on and the
any-column filter `1`, the line `a` has no matching field, yet the
append path keeps it (the synthetic `"1"` count cell, inserted before
the filter test, matches), while the rebuild - which filters the
count-free fields - drops the same line. -/
theorem C5_any_count_cex :
    (splitD (.str ",") "a").any
      (fun c => (litPatternCI "1").search (stripMarkup c)) = false ∧
    (addLogLine stC5d "a").map (fun r => r.1.displayed_rows) =
      some [["1", "a"]] ∧
    (updateTable { stC5d with raw_rows := ["a"] }).1.displayed_rows = [] := by
  refine ⟨by decide, rfl, rfl⟩

/-- Claim C5 (amended): the keep-iff over a line's fields holds for the
rebuild loop in all three filter configurations and for the append path
when dedup mode is off; the compiled literal patterns are
case-insensitive substring searches, not full matches, and only the
filter-by-word-under-cursor command anchors the escaped value as
`^...$` (a full match).  With dedup mode on, however, the append path
inserts the synthetic `"1"` count cell before testing, so its
any-column scan also examines that cell - any pattern matching `1`
keeps every well-formed fresh line whatever its fields, diverging from
the rebuild - while its column-scoped test reads the resolved column
under the count-aware index, the same field the rebuild tests.  The
`stC5` conjunct checks the concrete scoping example: filtering `err` on
column 1 over `err,ok` and `ok,err` displays only `err,ok`. -/
theorem C5_filter_semantics (split : String → List String) (expected : Nat)
    (fcol : Option String) (cols : List String) (uniqNE : Bool)
    (f : CPattern) (cn : String) (i : Nat) (raws : List String)
    (hcol : getColIdxByName cols cn = some i) :
    (filterRows split expected none fcol cols uniqNE raws).1 =
      (raws.map split).filter (fun cs => cs.length == expected) ∧
    (filterRows split expected (some f) none cols uniqNE raws).1 =
      (raws.map split).filter (fun cs => cs.length == expected &&
        cs.any (fun c => f.search (stripMarkup c))) ∧
    (filterRows split expected (some f) (some cn) cols uniqNE raws).1 =
      (raws.map split).filter (fun cs => cs.length == expected &&
        f.search (stripMarkup
          (pyGetD cs ((i : Int) - (if uniqNE then 1 else 0)) ""))) ∧
    (∀ pat s, (litPatternCI pat).search s = ciSubstr pat s) ∧
    (∀ cv, miniCompile (filterCursorWordPattern cv) = some (exactPatternCI cv)) ∧
    (updateTable stC5).1.displayed_rows = [["err", "ok"]] ∧
    (∀ (st : St) (line : String),
      st.unique_column_names = [] → st.sort_column = none →
      addLogLine st line =
        some ((if keepCellsB st.columns.length st.current_filter
                st.filter_column_name st.columns (splitD st.delimiter line) then
            { st with
              displayed_rows := st.displayed_rows ++
                [(hlRowAt st.search_term st.displayed_rows.length
                    (splitD st.delimiter line)).1],
              search_matches := st.search_matches ++
                (hlRowAt st.search_term st.displayed_rows.length
                    (splitD st.delimiter line)).2 }
          else st), [])) ∧
    (∀ (g : CPattern) (st : St) (line : String),
      ¬ st.unique_column_names = [] → st.sort_column = none →
      st.current_filter = some g → st.filter_column_name = none →
      st.search_term = none →
      ("1" :: splitD st.delimiter line).length = st.columns.length →
      st.displayed_rows.findIdx? (fun row =>
        rowCompositeKey st.columns st.unique_column_names row =
          rowCompositeKey st.columns st.unique_column_names
            ("1" :: splitD st.delimiter line)) = none →
      addLogLine st line =
        if ("1" :: splitD st.delimiter line).any
            (fun c => g.search (stripMarkup c)) then
          some ({ st with
            displayed_rows := st.displayed_rows ++
              ["1" :: splitD st.delimiter line],
            search_matches := st.search_matches ++ [],
            count_by_column_key := countSet st.count_by_column_key
              (rowCompositeKey st.columns st.unique_column_names
                ("1" :: splitD st.delimiter line)) 1 }, [])
        else some (st, [])) ∧
    (∀ (g : CPattern) (cells : List String),
      g.search (stripMarkup "1") = true →
      ("1" :: cells).any (fun c => g.search (stripMarkup c)) = true) ∧
    (∀ (g : CPattern) (st : St) (line : String) (cn2 : String) (j : Nat),
      ¬ st.unique_column_names = [] → st.sort_column = none →
      st.current_filter = some g → st.filter_column_name = some cn2 →
      getColIdxByName st.columns cn2 = some j →
      st.search_term = none →
      ("1" :: splitD st.delimiter line).length = st.columns.length →
      st.displayed_rows.findIdx? (fun row =>
        rowCompositeKey st.columns st.unique_column_names row =
          rowCompositeKey st.columns st.unique_column_names
            ("1" :: splitD st.delimiter line)) = none →
      addLogLine st line =
        if g.search (stripMarkup
            (pyGetD ("1" :: splitD st.delimiter line) (j : Int) "")) then
          some ({ st with
            displayed_rows := st.displayed_rows ++
              ["1" :: splitD st.delimiter line],
            search_matches := st.search_matches ++ [],
            count_by_column_key := countSet st.count_by_column_key
              (rowCompositeKey st.columns st.unique_column_names
                ("1" :: splitD st.delimiter line)) 1 }, [])
        else some (st, [])) ∧
    (∀ (cells : List String) (j : Nat),
      pyGetD ("1" :: cells) ((j : Int) + 1) "" = pyGetD cells (j : Int) "") := by
  refine ⟨?_, ?_, ?_, fun pat s => rfl, miniCompile_cursorWord, rfl,
    fun st line hu hs => addLogLine_simple st line hu hs,
    fun g st line h1 h2 h3 h4 h5 h6 h7 =>
      addLogLine_dedup_filter_any g st line h1 h2 h3 h4 h5 h6 h7,
    ?_,
    fun g st line cn2 j h1 h2 h3 h4 h5 h6 h7 h8 =>
      addLogLine_dedup_filter_col g st line cn2 j h1 h2 h3 h4 h5 h6 h7 h8,
    fun cells j => pyGetD_cons_succ "1" cells j ""⟩
  · rw [filterRows_none_eq]
  · rw [filterRows_any_eq]
  · rw [filterRows_col_eq split expected f cn cols uniqNE i hcol]
  · intro g cells h
    simp [List.any_cons, h]

/-- Witness for C5: the scoped-column characterization applied to the
concrete session of the example, and the dedup any-column gate applied
to the count-cell counterexample session. -/
theorem C5_filter_semantics_witness :
    getColIdxByName ["c1", "c2"] "c1" = some 0 ∧
    (filterRows (splitD (.str ",")) 2 (some (litPatternCI "err")) (some "c1")
        ["c1", "c2"] false ["err,ok", "ok,err"]).1 =
      ((["err,ok", "ok,err"].map (splitD (.str ","))).filter
        (fun cs => cs.length == 2 &&
          (litPatternCI "err").search (stripMarkup
            (pyGetD cs ((0 : Nat) - (if false then 1 else 0)) "")))) ∧
    (addLogLine stC5d "a").map (fun r => r.1.displayed_rows) =
      some [["1", "a"]] ∧
    ("1" :: splitD (.str ",") "a").any
      (fun c => (litPatternCI "1").search (stripMarkup c)) = true := by
  have h := C5_filter_semantics (splitD (.str ",")) 2 none ["c1", "c2"] false
    (litPatternCI "err") "c1" 0 ["err,ok", "ok,err"] rfl
  refine ⟨rfl, h.2.2.1, ?_, ?_⟩
  · have h8 := h.2.2.2.2.2.2.2.1 (litPatternCI "1") stC5d "a"
      (by decide) rfl rfl rfl rfl (by decide) rfl
    rw [h8]
    decide
  · exact h.2.2.2.2.2.2.2.2.1 (litPatternCI "1") (splitD (.str ",") "a")
      (by decide)
